import Mathlib

/-!
# Verification of the action tracking middleware

A shallow embedding of the action tracking middleware
(`actionTrackingMiddleware` / `simplifyActionContext`) of this repository.

Modelling choices:
* Action contexts are inductive trees: `previousAsyncStepContext` and
  `parentContext` back-links become child subterms, so the acyclicity the
  external context layer guarantees holds by construction.
* The mutable per-context `data` bag is identified by a natural number
  (`dataBag`); the middleware's private entry in a bag (stored in the source
  under a unique symbol key) becomes a `Store : Nat → Option TrackData`.
  `TrackData` fields are `Option`-valued because `setCtxData` stores partial
  records and merges them field-by-field (`Object.assign`).
* User hooks are observers: invoking a hook appends an `Event` to a trace.
  Each event also records the tracking `state` the hook could observe by
  reading the context's tracking data at the moment it is invoked.
* Values returned/thrown by actions are modelled as naturals (`Val`);
  targets are object identities, also naturals.
-/

/-- Action type, sync or async (`ActionContextActionType`). -/
inductive ActionType where
  | sync
  | async
deriving DecidableEq, Repr

/-- Async step type (`ActionContextAsyncStepType`).  `other` stands for any
out-of-enum runtime value, which the source handles in `default` branches. -/
inductive AsyncStepType where
  | spawn
  | ret
  | thr
  | resume
  | resumeError
  | other
deriving DecidableEq, Repr

/-- Action tracking middleware finish result (`ActionTrackingResult`). -/
inductive ActionTrackingResult where
  | ret
  | thr
deriving DecidableEq, Repr

/-- Values passed around by actions (arguments, return values, thrown errors). -/
abbrev Val := Nat

/-- Lifecycle state stored in the middleware's per-context tracking data. -/
inductive TState where
  | idle
  | started
  | realResumed
  | fakeResumed
  | suspended
  | finished
deriving DecidableEq, Repr

/-- The middleware's private per-context record (`Data` in the source).  Both
fields are optional because `setCtxData` stores and merges partial records;
an absent field is `none` (reads as `undefined`, which is falsy). -/
structure TrackData where
  startAccepted : Option Bool
  state : Option TState
deriving DecidableEq, Repr

/-- All tracking data of one middleware instance: what the source reaches via
`ctx.data[dataSymbol]`, indexed by the `data` bag identity. -/
abbrev Store := Nat → Option TrackData

/-- Function `getCtxData`: read the middleware's record from a context's data bag. -/
def getCtxData (st : Store) (bag : Nat) : Option TrackData :=
  st bag

/-- Function `setCtxData`: store the partial record if the bag has none, otherwise merge
it field-by-field into the current record (`Object.assign`). -/
def setCtxData (st : Store) (bag : Nat) (pd : TrackData) : Store :=
  fun b =>
    if b = bag then
      match st bag with
      | none => some pd
      | some cur =>
          some ⟨(pd.startAccepted.map some).getD cur.startAccepted,
                (pd.state.map some).getD cur.state⟩
    else st b

/-- The lifecycle state currently stored for a bag. -/
def stateOf (st : Store) (bag : Nat) : Option TState :=
  (st bag).bind (·.state)

/-- Simplified version of an action context (`SimpleActionContext`). -/
inductive SimpleActionContext where
  | mk (name : String) (type : ActionType) (target : Nat) (args : List Val)
       (dataBag : Nat) (parentContext : Option SimpleActionContext)
deriving Repr

/-- Action name of a simple context. -/
def SimpleActionContext.name : SimpleActionContext → String
  | .mk n _ _ _ _ _ => n

/-- Action type of a simple context. -/
def SimpleActionContext.type : SimpleActionContext → ActionType
  | .mk _ t _ _ _ _ => t

/-- Target of a simple context. -/
def SimpleActionContext.target : SimpleActionContext → Nat
  | .mk _ _ tg _ _ _ => tg

/-- Arguments of a simple context. -/
def SimpleActionContext.args : SimpleActionContext → List Val
  | .mk _ _ _ a _ _ => a

/-- Identity of the `data` bag of a simple context. -/
def SimpleActionContext.dataBag : SimpleActionContext → Nat
  | .mk _ _ _ _ db _ => db

/-- Parent context of a simple context. -/
def SimpleActionContext.parentContext : SimpleActionContext → Option SimpleActionContext
  | .mk _ _ _ _ _ pc => pc

/-- A full action context (`ActionContext`): one execution step of one action
invocation.  `asyncStepType` is only meaningful when `type` is async. -/
inductive ActionContext where
  | mk (name : String) (type : ActionType) (asyncStepType : AsyncStepType)
       (target : Nat) (args : List Val) (dataBag : Nat)
       (parentContext : Option ActionContext)
       (previousAsyncStepContext : Option ActionContext)
deriving Repr

/-- Action name of a context. -/
def ActionContext.name : ActionContext → String
  | .mk n _ _ _ _ _ _ _ => n

/-- Action type of a context. -/
def ActionContext.type : ActionContext → ActionType
  | .mk _ t _ _ _ _ _ _ => t

/-- Async step type of a context. -/
def ActionContext.asyncStepType : ActionContext → AsyncStepType
  | .mk _ _ s _ _ _ _ _ => s

/-- Target of a context. -/
def ActionContext.target : ActionContext → Nat
  | .mk _ _ _ tg _ _ _ _ => tg

/-- Arguments of a context. -/
def ActionContext.args : ActionContext → List Val
  | .mk _ _ _ _ a _ _ _ => a

/-- Identity of the `data` bag of a context. -/
def ActionContext.dataBag : ActionContext → Nat
  | .mk _ _ _ _ _ db _ _ => db

/-- Parent (caller) context of a context. -/
def ActionContext.parentContext : ActionContext → Option ActionContext
  | .mk _ _ _ _ _ _ pc _ => pc

/-- Previous step of the same logical async action, if any. -/
def ActionContext.previousAsyncStepContext : ActionContext → Option ActionContext
  | .mk _ _ _ _ _ _ _ pv => pv

/-- Root of a step-chain: the result of following `previousAsyncStepContext`
links to the end (the `while` loops of the source). -/
def chainRoot : ActionContext → ActionContext
  | .mk n t s tg a db pc none => .mk n t s tg a db pc none
  | .mk _ _ _ _ _ _ _ (some prev) => chainRoot prev

/-- Function `simplifyActionContext`: walk `previousAsyncStepContext` back to the
step-chain root, then build the simple context from the root's fields,
recursively simplifying the root's parent. -/
def simplifyActionContext : ActionContext → SimpleActionContext
  | .mk n t _ tg a db pc none =>
      .mk n t tg a db
        (match pc with
         | some p => some (simplifyActionContext p)
         | none => none)
  | .mk _ _ _ _ _ _ _ (some prev) => simplifyActionContext prev

/-- Re-embed a simple context as a plain action context with no step-chain
(used to state idempotence of simplification). -/
def ofSimpleCtx : SimpleActionContext → ActionContext
  | .mk n t tg a db pc =>
      .mk n t .spawn tg a db
        (match pc with
         | some p => some (ofSimpleCtx p)
         | none => none)
        none

@[simp]
theorem chainRoot_mk_none (n t s tg a db pc) :
    chainRoot (.mk n t s tg a db pc none) = .mk n t s tg a db pc none := by
  rw [chainRoot.eq_def]

@[simp]
theorem chainRoot_mk_some (n t s tg a db pc prev) :
    chainRoot (.mk n t s tg a db pc (some prev)) = chainRoot prev := by
  rw [chainRoot.eq_def]

@[simp]
theorem simplify_mk_none (n t s tg a db) :
    simplifyActionContext (.mk n t s tg a db none none) =
      .mk n t tg a db none := by
  rw [simplifyActionContext.eq_def]

@[simp]
theorem simplify_mk_parent (n t s tg a db p) :
    simplifyActionContext (.mk n t s tg a db (some p) none) =
      .mk n t tg a db (some (simplifyActionContext p)) := by
  rw [simplifyActionContext.eq_def]

@[simp]
theorem simplify_mk_prev (n t s tg a db pc prev) :
    simplifyActionContext (.mk n t s tg a db pc (some prev)) =
      simplifyActionContext prev := by
  rw [simplifyActionContext.eq_def]

@[simp]
theorem ofSimpleCtx_mk_none (n t tg a db) :
    ofSimpleCtx (.mk n t tg a db none) = .mk n t .spawn tg a db none none := by
  rw [ofSimpleCtx.eq_def]

@[simp]
theorem ofSimpleCtx_mk_parent (n t tg a db p) :
    ofSimpleCtx (.mk n t tg a db (some p)) =
      .mk n t .spawn tg a db (some (ofSimpleCtx p)) none := by
  rw [ofSimpleCtx.eq_def]

theorem simplify_eq_of_root (ctx : ActionContext) :
    simplifyActionContext ctx = simplifyActionContext (chainRoot ctx) := by
  match ctx with
  | .mk n t s tg a db pc none => simp
  | .mk n t s tg a db pc (some prev) =>
      simp
      exact simplify_eq_of_root prev

theorem simplify_ofSimpleCtx (s : SimpleActionContext) :
    simplifyActionContext (ofSimpleCtx s) = s := by
  match s with
  | .mk n t tg a db none => simp
  | .mk n t tg a db (some p) => simp [simplify_ofSimpleCtx p]

theorem simplify_dataBag (ctx : ActionContext) :
    (simplifyActionContext ctx).dataBag = (chainRoot ctx).dataBag := by
  match ctx with
  | .mk n t s tg a db pc none =>
      cases pc <;> simp [SimpleActionContext.dataBag, ActionContext.dataBag]
  | .mk n t s tg a db pc (some prev) =>
      simp
      exact simplify_dataBag prev

/-- C4: contexts of one step-chain all simplify to the same simple context,
which carries the chain root's data bag; and simplification is idempotent. -/
theorem c4_simplify_canonical_idempotent :
    (∀ c1 c2 : ActionContext, chainRoot c1 = chainRoot c2 →
        simplifyActionContext c1 = simplifyActionContext c2) ∧
    (∀ c : ActionContext,
        (simplifyActionContext c).dataBag = (chainRoot c).dataBag) ∧
    (∀ c : ActionContext,
        simplifyActionContext (ofSimpleCtx (simplifyActionContext c)) =
          simplifyActionContext c) := by
  refine ⟨?_, ?_, ?_⟩
  · intro c1 c2 h
    rw [simplify_eq_of_root c1, simplify_eq_of_root c2, h]
  · exact simplify_dataBag
  · intro c
    exact simplify_ofSimpleCtx (simplifyActionContext c)

/-! ## Middleware configuration and hooks -/

/-- One configured middleware instance: the optional action-name restriction
and which hooks were supplied.  `filterPred` is the user predicate of the
optional `filter` hook; `hasOnResume`/`hasOnSuspend` record whether the
optional resume/suspend hooks are present (`onStart`/`onFinish` are
mandatory and always fire). -/
structure Cfg where
  actionName : Option String
  filterPresent : Bool
  filterPred : SimpleActionContext → Bool
  hasOnResume : Bool
  hasOnSuspend : Bool

/-- Flag `resumeSuspendSupport`: resume/suspend tracking is enabled when at least
one of the two optional hooks is present. -/
def resumeSuspendSupport (cfg : Cfg) : Bool :=
  cfg.hasOnResume || cfg.hasOnSuspend

/-- Function `userFilter`: the user predicate on the simplified context, defaulting to
accept when no `filter` hook was supplied. -/
def userFilter (cfg : Cfg) (ctx : ActionContext) : Bool :=
  if cfg.filterPresent then cfg.filterPred (simplifyActionContext ctx) else true

/-- JS truthiness of the optional `actionName` (a string: empty is falsy). -/
def truthyName : Option String → Bool
  | some nm => nm ≠ ""
  | none => false

/-- A hook invocation observed by the user.  `seen` is the lifecycle state
the hook could read from the context's tracking data at the moment it is
invoked. -/
inductive Event where
  | onStart (ctx : SimpleActionContext) (seen : Option TState)
  | onResume (ctx : SimpleActionContext) (seen : Option TState)
  | onSuspend (ctx : SimpleActionContext) (seen : Option TState)
  | onFinish (ctx : SimpleActionContext) (result : ActionTrackingResult)
      (value : Val) (seen : Option TState)
deriving Repr

/-- The context a hook invocation was given. -/
def Event.ctx : Event → SimpleActionContext
  | .onStart c _ => c
  | .onResume c _ => c
  | .onSuspend c _ => c
  | .onFinish c _ _ _ => c

/-- The data bag identity of the invocation an event belongs to. -/
def Event.bag (e : Event) : Nat :=
  e.ctx.dataBag

/-- Events of the trace belonging to the invocation with the given bag. -/
def eventsFor (bag : Nat) (tr : List Event) : List Event :=
  tr.filter (fun e => e.bag == bag)

/-! ## Acceptance filter -/

/-- Function `filter`: decides whether the lifecycle driver processes this step, and
initializes tracking data (`{startAccepted: true, state: "idle"}`) on the
accepted sync/spawn steps.  Returns the decision and the updated store. -/
def filter (cfg : Cfg) (st : Store) (ctx : ActionContext) : Bool × Store :=
  if truthyName cfg.actionName && ctx.name != cfg.actionName.getD "" then
    (false, st)
  else if ctx.type = .sync then
    let accepted := userFilter cfg ctx
    if accepted then (true, setCtxData st ctx.dataBag ⟨some true, some .idle⟩)
    else (false, st)
  else
    match ctx.asyncStepType with
    | .spawn =>
        let accepted := userFilter cfg ctx
        if accepted then
          (true, setCtxData st ctx.dataBag ⟨some true, some .idle⟩)
        else (false, st)
    | .ret | .thr =>
        match getCtxData st (chainRoot ctx).dataBag with
        | some d => (d.startAccepted == some true, st)
        | none => (false, st)
    | .resume | .resumeError => (resumeSuspendSupport cfg, st)
    | .other => (false, st)

/-! ## Lifecycle driver -/

/-- Does this context currently hold tracking data with `startAccepted` and
state `suspended`?  (The parent check of `resume` and `finish`.) -/
def trackedSuspended (st : Store) (c : SimpleActionContext) : Bool :=
  match getCtxData st c.dataBag with
  | some pd => pd.startAccepted == some true && pd.state == some .suspended
  | none => false

/-- Does this context currently hold tracking data with `startAccepted` and
state `fakeResumed`?  (The parent check of `suspend`.) -/
def trackedFake (st : Store) (c : SimpleActionContext) : Bool :=
  match getCtxData st c.dataBag with
  | some pd => pd.startAccepted == some true && pd.state == some .fakeResumed
  | none => false

/-- Operation `start`: set state `started`, then invoke the `onStart` hook. -/
def start (cfg : Cfg) (simpleCtx : SimpleActionContext) (st : Store) :
    Store × List Event :=
  let st1 := setCtxData st simpleCtx.dataBag ⟨none, some .started⟩
  (st1, [.onStart simpleCtx (stateOf st1 simpleCtx.dataBag)])

/-- Operation `resume`: first ensure a suspended parent is (fake) resumed, then set
state `realResumed`/`fakeResumed` and invoke the `onResume` hook if present. -/
def resume (cfg : Cfg) : SimpleActionContext → Bool → Store → Store × List Event
  | .mk n t tg a db pc, real, st =>
    let parentStep :=
      match pc with
      | some p => if trackedSuspended st p then resume cfg p false st else (st, [])
      | none => (st, [])
    let st1 := parentStep.1
    let st2 := setCtxData st1 db
      ⟨none, some (if real then .realResumed else .fakeResumed)⟩
    let ev2 :=
      if cfg.hasOnResume then
        [Event.onResume (.mk n t tg a db pc) (stateOf st2 db)]
      else []
    (st2, parentStep.2 ++ ev2)

/-- Operation `suspend`: set state `suspended`, invoke the `onSuspend` hook if present,
then recursively suspend the parent if it was fakely resumed. -/
def suspend (cfg : Cfg) : SimpleActionContext → Store → Store × List Event
  | .mk n t tg a db pc, st =>
    let st1 := setCtxData st db ⟨none, some .suspended⟩
    let ev1 :=
      if cfg.hasOnSuspend then
        [Event.onSuspend (.mk n t tg a db pc) (stateOf st1 db)]
      else []
    match pc with
    | some p =>
        if trackedFake st1 p then
          let parentStep := suspend cfg p st1
          (parentStep.1, ev1 ++ parentStep.2)
        else (st1, ev1)
    | none => (st1, ev1)

/-- Operation `finish`: fakely resume a suspended parent, set state `finished`, invoke
the `onFinish` hook, then re-suspend the parent if it was fakely resumed. -/
def finish (cfg : Cfg) (simpleCtx : SimpleActionContext)
    (result : ActionTrackingResult) (value : Val) (st : Store) :
    Store × List Event :=
  match simpleCtx.parentContext with
  | some p =>
      if trackedSuspended st p then
        let parentStep := resume cfg p false st
        let st2 := setCtxData parentStep.1 simpleCtx.dataBag ⟨none, some .finished⟩
        let ev2 := [Event.onFinish simpleCtx result value (stateOf st2 simpleCtx.dataBag)]
        let suspendStep := suspend cfg p st2
        (suspendStep.1, parentStep.2 ++ ev2 ++ suspendStep.2)
      else
        let st2 := setCtxData st simpleCtx.dataBag ⟨none, some .finished⟩
        (st2, [Event.onFinish simpleCtx result value (stateOf st2 simpleCtx.dataBag)])
  | none =>
      let st2 := setCtxData st simpleCtx.dataBag ⟨none, some .finished⟩
      (st2, [Event.onFinish simpleCtx result value (stateOf st2 simpleCtx.dataBag)])

/-! ## Middleware entry point -/

/-- What one middleware invocation returns to the external chain. -/
inductive MwResult where
  | ok (v : Val)
  | userErr (e : Val)
  | internalErr (step : AsyncStepType)
deriving DecidableEq, Repr

/-- The "continue execution" callback: takes the current store, returns the
updated store, the events its nested steps emitted, and either the returned
value or the thrown error. -/
abbrev Next := Store → Store × List Event × Except Val Val

/-- The wrapped callback of `mware`: a real resume before, and a suspend when
its dynamic extent ends no matter whether it returned or threw. -/
def wrappedNext (cfg : Cfg) (simpleCtx : SimpleActionContext) (next : Next)
    (st : Store) : Store × List Event × Except Val Val :=
  let resumeStep := resume cfg simpleCtx true st
  let nextStep := next resumeStep.1
  let suspendStep := suspend cfg simpleCtx nextStep.1
  (suspendStep.1, resumeStep.2 ++ nextStep.2.1 ++ suspendStep.2, nextStep.2.2)

/-- Function `mware`: the middleware body.  Dispatches on the step type, driving the
lifecycle operations around the wrapped callback. -/
def mware (cfg : Cfg) (ctx : ActionContext) (next : Next) (st : Store) :
    Store × List Event × MwResult :=
  let simpleCtx := simplifyActionContext ctx
  if ctx.type = .sync then
    let startStep := start cfg simpleCtx st
    let w := wrappedNext cfg simpleCtx next startStep.1
    match w.2.2 with
    | .ok v =>
        let finishStep := finish cfg simpleCtx .ret v w.1
        (finishStep.1, startStep.2 ++ w.2.1 ++ finishStep.2, .ok v)
    | .error e =>
        let finishStep := finish cfg simpleCtx .thr e w.1
        (finishStep.1, startStep.2 ++ w.2.1 ++ finishStep.2, .userErr e)
  else
    match ctx.asyncStepType with
    | .spawn =>
        let startStep := start cfg simpleCtx st
        let w := wrappedNext cfg simpleCtx next startStep.1
        match w.2.2 with
        | .ok v => (w.1, startStep.2 ++ w.2.1, .ok v)
        | .error e => (w.1, startStep.2 ++ w.2.1, .userErr e)
    | .ret =>
        let w := wrappedNext cfg simpleCtx next st
        match w.2.2 with
        | .ok v =>
            let finishStep := finish cfg simpleCtx .ret v w.1
            (finishStep.1, w.2.1 ++ finishStep.2, .ok v)
        | .error e => (w.1, w.2.1, .userErr e)
    | .thr =>
        let w := wrappedNext cfg simpleCtx next st
        match w.2.2 with
        | .ok v =>
            let finishStep := finish cfg simpleCtx .thr v w.1
            (finishStep.1, w.2.1 ++ finishStep.2, .ok v)
        | .error e => (w.1, w.2.1, .userErr e)
    | .resume | .resumeError =>
        if resumeSuspendSupport cfg then
          let w := wrappedNext cfg simpleCtx next st
          match w.2.2 with
          | .ok v => (w.1, w.2.1, .ok v)
          | .error e => (w.1, w.2.1, .userErr e)
        else (st, [], .internalErr ctx.asyncStepType)
    | .other => (st, [], .internalErr ctx.asyncStepType)

/-- One step of the external middleware chain: consult the filter, and only
when it accepts invoke the middleware body. -/
def runStep (cfg : Cfg) (ctx : ActionContext) (next : Next) (st : Store) :
    Store × List Event × Option MwResult :=
  let f := filter cfg st ctx
  if f.1 then
    let m := mware cfg ctx next f.2
    (m.1, m.2.1, some m.2.2)
  else (f.2, [], none)

/-! ## Configuration-time validation -/

/-- A shallow JS value universe: enough to express the configuration-time
checks (`isObject`, `instanceof Model`, `typeof · === "function"`). -/
inductive JSVal where
  | undef
  | prim
  | func
  | obj (isModel : Bool) (props : List (String × JSVal))
deriving Repr

/-- Property lookup on an object's member list. -/
def lookupProp : List (String × JSVal) → String → Option JSVal
  | [], _ => none
  | (k, v) :: rest, nm => if k = nm then some v else lookupProp rest nm

/-- The check `model instanceof Model`. -/
def isModelInstance : JSVal → Bool
  | .obj true _ => true
  | _ => false

/-- The check `typeof model[actionName]` being a function. -/
def isFunctionMember (model : JSVal) (nm : String) : Bool :=
  match model with
  | .obj _ props =>
      match lookupProp props nm with
      | some .func => true
      | _ => false
  | _ => false

/-- The `target` argument of `actionTrackingMiddleware`: either not an object
at all, or an object carrying `model` and the optional `actionName`. -/
inductive TargetArg where
  | nonObject
  | obj (model : JSVal) (actionName : Option String)
deriving Repr

/-- Configuration-time validation of `actionTrackingMiddleware`: the three
checks performed synchronously before any action runs; `.ok` stands for the
returned middleware object. -/
def actionTrackingMiddleware (target : TargetArg) (hooks : Cfg) :
    Except String Unit :=
  match target with
  | .nonObject => .error "target must be an object"
  | .obj model actionName =>
      if !isModelInstance model then .error "target must be a model"
      else if truthyName actionName &&
          !isFunctionMember model (actionName.getD "") then
        .error "action must be a function or undefined"
      else .ok ()

/-! ## Basic store lemmas -/

@[simp]
theorem setCtxData_other (st : Store) (bag b : Nat) (pd : TrackData)
    (h : b ≠ bag) : setCtxData st bag pd b = st b := by
  simp [setCtxData, h]

@[simp]
theorem stateOf_setCtxData_self (st : Store) (bag : Nat) (sa : Option Bool)
    (s : TState) :
    stateOf (setCtxData st bag ⟨sa, some s⟩) bag = some s := by
  simp only [stateOf, setCtxData, if_pos rfl]
  cases st bag <;> simp

@[simp]
theorem stateOf_setCtxData_other (st : Store) (bag b : Nat) (pd : TrackData)
    (h : b ≠ bag) : stateOf (setCtxData st bag pd) b = stateOf st b := by
  simp [stateOf, h]

@[simp]
theorem getCtxData_setCtxData_other (st : Store) (bag b : Nat) (pd : TrackData)
    (h : b ≠ bag) : getCtxData (setCtxData st bag pd) b = getCtxData st b := by
  simp [getCtxData, h]

theorem trackedSuspended_setCtxData (st : Store) (bag : Nat) (pd : TrackData)
    (c : SimpleActionContext) (h : c.dataBag ≠ bag) :
    trackedSuspended (setCtxData st bag pd) c = trackedSuspended st c := by
  simp [trackedSuspended, h]

theorem trackedFake_setCtxData (st : Store) (bag : Nat) (pd : TrackData)
    (c : SimpleActionContext) (h : c.dataBag ≠ bag) :
    trackedFake (setCtxData st bag pd) c = trackedFake st c := by
  simp [trackedFake, h]

theorem trackedSuspended_state (st : Store) (c : SimpleActionContext)
    (h : trackedSuspended st c = true) : stateOf st c.dataBag = some .suspended := by
  unfold trackedSuspended at h
  unfold stateOf getCtxData at *
  cases hd : st c.dataBag with
  | none => simp [hd] at h
  | some pd =>
      simp only [hd, Bool.and_eq_true, beq_iff_eq] at h
      simp [hd, h.2]

theorem trackedFake_state (st : Store) (c : SimpleActionContext)
    (h : trackedFake st c = true) : stateOf st c.dataBag = some .fakeResumed := by
  unfold trackedFake at h
  unfold stateOf getCtxData at *
  cases hd : st c.dataBag with
  | none => simp [hd] at h
  | some pd =>
      simp only [hd, Bool.and_eq_true, beq_iff_eq] at h
      simp [hd, h.2]

/-! ## Projection lemmas -/

@[simp]
theorem sctx_name_mk (n t tg a db pc) :
    (SimpleActionContext.mk n t tg a db pc).name = n := rfl

@[simp]
theorem sctx_type_mk (n t tg a db pc) :
    (SimpleActionContext.mk n t tg a db pc).type = t := rfl

@[simp]
theorem sctx_target_mk (n t tg a db pc) :
    (SimpleActionContext.mk n t tg a db pc).target = tg := rfl

@[simp]
theorem sctx_args_mk (n t tg a db pc) :
    (SimpleActionContext.mk n t tg a db pc).args = a := rfl

@[simp]
theorem sctx_dataBag_mk (n t tg a db pc) :
    (SimpleActionContext.mk n t tg a db pc).dataBag = db := rfl

@[simp]
theorem sctx_parentContext_mk (n t tg a db pc) :
    (SimpleActionContext.mk n t tg a db pc).parentContext = pc := rfl

@[simp]
theorem actx_name_mk (n t s tg a db pc pv) :
    (ActionContext.mk n t s tg a db pc pv).name = n := rfl

@[simp]
theorem actx_type_mk (n t s tg a db pc pv) :
    (ActionContext.mk n t s tg a db pc pv).type = t := rfl

@[simp]
theorem actx_asyncStepType_mk (n t s tg a db pc pv) :
    (ActionContext.mk n t s tg a db pc pv).asyncStepType = s := rfl

@[simp]
theorem actx_dataBag_mk (n t s tg a db pc pv) :
    (ActionContext.mk n t s tg a db pc pv).dataBag = db := rfl

@[simp]
theorem actx_parentContext_mk (n t s tg a db pc pv) :
    (ActionContext.mk n t s tg a db pc pv).parentContext = pc := rfl

@[simp]
theorem actx_previous_mk (n t s tg a db pc pv) :
    (ActionContext.mk n t s tg a db pc pv).previousAsyncStepContext = pv := rfl

@[simp]
theorem event_bag_onStart (c s) : (Event.onStart c s).bag = c.dataBag := rfl

@[simp]
theorem event_bag_onResume (c s) : (Event.onResume c s).bag = c.dataBag := rfl

@[simp]
theorem event_bag_onSuspend (c s) : (Event.onSuspend c s).bag = c.dataBag := rfl

@[simp]
theorem event_bag_onFinish (c r v s) : (Event.onFinish c r v s).bag = c.dataBag := rfl

/-! ## Ancestor bags and well-formed contexts -/

/-- The data bags of the proper ancestors of a context, nearest first. -/
def ancestorBags : SimpleActionContext → List Nat
  | .mk _ _ _ _ _ (some p) => p.dataBag :: ancestorBags p
  | .mk _ _ _ _ _ none => []

@[simp]
theorem ancestorBags_mk_none (n t tg a db) :
    ancestorBags (.mk n t tg a db none) = [] := by
  rw [ancestorBags.eq_def]

@[simp]
theorem ancestorBags_mk_some (n t tg a db p) :
    ancestorBags (.mk n t tg a db (some p)) = p.dataBag :: ancestorBags p := by
  rw [ancestorBags.eq_def]

/-- A context is well formed when its own data bag and those of all its
ancestors are pairwise distinct (each invocation owns a fresh bag). -/
def wellFormed (c : SimpleActionContext) : Prop :=
  (c.dataBag :: ancestorBags c).Nodup

instance (c : SimpleActionContext) : Decidable (wellFormed c) := by
  unfold wellFormed
  infer_instance

theorem wellFormed_parent (n t tg a db p) (h : wellFormed (.mk n t tg a db (some p))) :
    wellFormed p := by
  unfold wellFormed at *
  simp only [ancestorBags_mk_some, List.nodup_cons] at h
  exact List.nodup_cons.mpr ⟨h.2.1, h.2.2⟩

theorem wellFormed_bag_not_anc (n t tg a db p)
    (h : wellFormed (.mk n t tg a db (some p))) :
    db ∉ p.dataBag :: ancestorBags p := by
  unfold wellFormed at h
  simp only [sctx_dataBag_mk, ancestorBags_mk_some, List.nodup_cons] at h
  exact h.1

/-! ## Driver equation lemmas -/

theorem resume_parent_none (cfg : Cfg) (n t tg a db real st) :
    resume cfg (.mk n t tg a db none) real st =
      (setCtxData st db ⟨none, some (if real then .realResumed else .fakeResumed)⟩,
       if cfg.hasOnResume then
         [Event.onResume (.mk n t tg a db none)
            (some (if real then .realResumed else .fakeResumed))]
       else []) := by
  rw [resume.eq_def]
  simp

theorem resume_parent_susp (cfg : Cfg) (n t tg a db p real st)
    (h : trackedSuspended st p = true) :
    resume cfg (.mk n t tg a db (some p)) real st =
      (setCtxData (resume cfg p false st).1 db
        ⟨none, some (if real then .realResumed else .fakeResumed)⟩,
       (resume cfg p false st).2 ++
         (if cfg.hasOnResume then
            [Event.onResume (.mk n t tg a db (some p))
               (some (if real then .realResumed else .fakeResumed))]
          else [])) := by
  rw [resume.eq_def]
  simp [h]

theorem resume_parent_not (cfg : Cfg) (n t tg a db p real st)
    (h : trackedSuspended st p = false) :
    resume cfg (.mk n t tg a db (some p)) real st =
      (setCtxData st db ⟨none, some (if real then .realResumed else .fakeResumed)⟩,
       if cfg.hasOnResume then
         [Event.onResume (.mk n t tg a db (some p))
            (some (if real then .realResumed else .fakeResumed))]
       else []) := by
  rw [resume.eq_def]
  simp [h]

theorem suspend_parent_none (cfg : Cfg) (n t tg a db st) :
    suspend cfg (.mk n t tg a db none) st =
      (setCtxData st db ⟨none, some .suspended⟩,
       if cfg.hasOnSuspend then
         [Event.onSuspend (.mk n t tg a db none) (some .suspended)]
       else []) := by
  rw [suspend.eq_def]
  simp

theorem suspend_parent_fake (cfg : Cfg) (n t tg a db p st)
    (h : trackedFake (setCtxData st db ⟨none, some .suspended⟩) p = true) :
    suspend cfg (.mk n t tg a db (some p)) st =
      ((suspend cfg p (setCtxData st db ⟨none, some .suspended⟩)).1,
       (if cfg.hasOnSuspend then
          [Event.onSuspend (.mk n t tg a db (some p)) (some .suspended)]
        else []) ++
         (suspend cfg p (setCtxData st db ⟨none, some .suspended⟩)).2) := by
  rw [suspend.eq_def]
  simp [h]

theorem suspend_parent_notfake (cfg : Cfg) (n t tg a db p st)
    (h : trackedFake (setCtxData st db ⟨none, some .suspended⟩) p = false) :
    suspend cfg (.mk n t tg a db (some p)) st =
      (setCtxData st db ⟨none, some .suspended⟩,
       if cfg.hasOnSuspend then
         [Event.onSuspend (.mk n t tg a db (some p)) (some .suspended)]
       else []) := by
  rw [suspend.eq_def]
  simp [h]

theorem finish_parent_susp (cfg : Cfg) (c : SimpleActionContext) (r v st p)
    (hp : c.parentContext = some p) (h : trackedSuspended st p = true) :
    finish cfg c r v st =
      ((suspend cfg p
          (setCtxData (resume cfg p false st).1 c.dataBag ⟨none, some .finished⟩)).1,
       (resume cfg p false st).2 ++
         [Event.onFinish c r v (some .finished)] ++
         (suspend cfg p
           (setCtxData (resume cfg p false st).1 c.dataBag ⟨none, some .finished⟩)).2) := by
  unfold finish
  rw [hp]
  simp [h]

theorem finish_not_susp (cfg : Cfg) (c : SimpleActionContext) (r v st)
    (h : ∀ p, c.parentContext = some p → trackedSuspended st p = false) :
    finish cfg c r v st =
      (setCtxData st c.dataBag ⟨none, some .finished⟩,
       [Event.onFinish c r v (some .finished)]) := by
  unfold finish
  cases hp : c.parentContext with
  | none => simp
  | some p => simp [h p hp]

/-! ## Suspended / fake-resumed ancestor chains -/

/-- The contiguous chain of ancestors, nearest first, that currently hold
tracking data with `startAccepted` and state `suspended` (the ancestors a
`resume` call will fakely resume). -/
def suspChain (st : Store) : SimpleActionContext → List SimpleActionContext
  | .mk _ _ _ _ _ (some p) =>
      if trackedSuspended st p then p :: suspChain st p else []
  | .mk _ _ _ _ _ none => []

@[simp]
theorem suspChain_mk_none (st n t tg a db) :
    suspChain st (.mk n t tg a db none) = [] := by
  rw [suspChain.eq_def]

theorem suspChain_mk_some (st n t tg a db p) :
    suspChain st (.mk n t tg a db (some p)) =
      if trackedSuspended st p then p :: suspChain st p else [] := by
  rw [suspChain.eq_def]

/-- The contiguous chain of ancestors, nearest first, that currently hold
tracking data with `startAccepted` and state `fakeResumed` (the ancestors a
`suspend` call will re-suspend). -/
def fakeChain (st : Store) : SimpleActionContext → List SimpleActionContext
  | .mk _ _ _ _ _ (some p) =>
      if trackedFake st p then p :: fakeChain st p else []
  | .mk _ _ _ _ _ none => []

@[simp]
theorem fakeChain_mk_none (st n t tg a db) :
    fakeChain st (.mk n t tg a db none) = [] := by
  rw [fakeChain.eq_def]

theorem fakeChain_mk_some (st n t tg a db p) :
    fakeChain st (.mk n t tg a db (some p)) =
      if trackedFake st p then p :: fakeChain st p else [] := by
  rw [fakeChain.eq_def]

theorem suspChain_sub_anc (st : Store) (c : SimpleActionContext) :
    ∀ a ∈ suspChain st c, a.dataBag ∈ ancestorBags c := by
  match c with
  | .mk n t tg ar db none => simp
  | .mk n t tg ar db (some p) =>
      intro a ha
      rw [suspChain_mk_some] at ha
      by_cases h : trackedSuspended st p = true
      · rw [if_pos h] at ha
        simp only [List.mem_cons] at ha
        rcases ha with rfl | ha
        · simp
        · simp only [ancestorBags_mk_some, List.mem_cons]
          exact Or.inr (suspChain_sub_anc st p a ha)
      · rw [if_neg h] at ha
        simp at ha

theorem suspChain_tracked (st : Store) (c : SimpleActionContext) :
    ∀ a ∈ suspChain st c, trackedSuspended st a = true := by
  match c with
  | .mk n t tg ar db none => simp
  | .mk n t tg ar db (some p) =>
      intro a ha
      rw [suspChain_mk_some] at ha
      by_cases h : trackedSuspended st p = true
      · rw [if_pos h] at ha
        simp only [List.mem_cons] at ha
        rcases ha with rfl | ha
        · exact h
        · exact suspChain_tracked st p a ha
      · rw [if_neg h] at ha
        simp at ha

theorem fakeChain_sub_anc (st : Store) (c : SimpleActionContext) :
    ∀ a ∈ fakeChain st c, a.dataBag ∈ ancestorBags c := by
  match c with
  | .mk n t tg ar db none => simp
  | .mk n t tg ar db (some p) =>
      intro a ha
      rw [fakeChain_mk_some] at ha
      by_cases h : trackedFake st p = true
      · rw [if_pos h] at ha
        simp only [List.mem_cons] at ha
        rcases ha with rfl | ha
        · simp
        · simp only [ancestorBags_mk_some, List.mem_cons]
          exact Or.inr (fakeChain_sub_anc st p a ha)
      · rw [if_neg h] at ha
        simp at ha

theorem fakeChain_tracked (st : Store) (c : SimpleActionContext) :
    ∀ a ∈ fakeChain st c, trackedFake st a = true := by
  match c with
  | .mk n t tg ar db none => simp
  | .mk n t tg ar db (some p) =>
      intro a ha
      rw [fakeChain_mk_some] at ha
      by_cases h : trackedFake st p = true
      · rw [if_pos h] at ha
        simp only [List.mem_cons] at ha
        rcases ha with rfl | ha
        · exact h
        · exact fakeChain_tracked st p a ha
      · rw [if_neg h] at ha
        simp at ha

theorem trackedFake_congr (st st' : Store) (c : SimpleActionContext)
    (h : st' c.dataBag = st c.dataBag) : trackedFake st' c = trackedFake st c := by
  unfold trackedFake getCtxData
  rw [h]

theorem fakeChain_congr (st st' : Store) (c : SimpleActionContext)
    (h : ∀ b ∈ ancestorBags c, st' b = st b) :
    fakeChain st' c = fakeChain st c := by
  match c with
  | .mk n t tg ar db none => simp
  | .mk n t tg ar db (some p) =>
      rw [fakeChain_mk_some, fakeChain_mk_some]
      have hp : st' p.dataBag = st p.dataBag := by
        refine h p.dataBag ?_
        simp
      rw [trackedFake_congr st st' p hp]
      have hrec : fakeChain st' p = fakeChain st p := by
        refine fakeChain_congr st st' p ?_
        intro b hb
        refine h b ?_
        simp [hb]
      rw [hrec]

/-! ## Resume lemmas -/

theorem resume_trace (cfg : Cfg) (c : SimpleActionContext) (real : Bool)
    (st : Store) :
    (resume cfg c real st).2 =
      if cfg.hasOnResume then
        (suspChain st c).reverse.map (fun a => Event.onResume a (some .fakeResumed)) ++
          [Event.onResume c (some (if real then .realResumed else .fakeResumed))]
      else [] := by
  match c with
  | .mk n t tg ar db none =>
      rw [resume_parent_none]
      by_cases h : cfg.hasOnResume = true <;> simp [h]
  | .mk n t tg ar db (some p) =>
      by_cases h : trackedSuspended st p = true
      · rw [resume_parent_susp cfg n t tg ar db p real st h]
        rw [suspChain_mk_some, if_pos h]
        have ih := resume_trace cfg p false st
        by_cases hr : cfg.hasOnResume = true
        · simp [hr] at ih
          simp [hr, ih]
        · simp only [Bool.not_eq_true] at hr
          simp [hr] at ih
          simp [hr, ih]
      · simp only [Bool.not_eq_true] at h
        rw [resume_parent_not cfg n t tg ar db p real st h]
        rw [suspChain_mk_some, h]
        by_cases hr : cfg.hasOnResume = true <;> simp [hr]

theorem resume_state_self (cfg : Cfg) (c : SimpleActionContext) (real : Bool)
    (st : Store) :
    stateOf (resume cfg c real st).1 c.dataBag =
      some (if real then .realResumed else .fakeResumed) := by
  match c with
  | .mk n t tg ar db none =>
      rw [resume_parent_none]
      simp
  | .mk n t tg ar db (some p) =>
      by_cases h : trackedSuspended st p = true
      · rw [resume_parent_susp cfg n t tg ar db p real st h]
        simp
      · simp only [Bool.not_eq_true] at h
        rw [resume_parent_not cfg n t tg ar db p real st h]
        simp

theorem resume_frame (cfg : Cfg) (c : SimpleActionContext) (real : Bool)
    (st : Store) (b : Nat) (hb : b ≠ c.dataBag)
    (hchain : b ∉ (suspChain st c).map (·.dataBag)) :
    (resume cfg c real st).1 b = st b := by
  match c with
  | .mk n t tg ar db none =>
      rw [resume_parent_none]
      simp only [sctx_dataBag_mk] at hb
      simp [hb]
  | .mk n t tg ar db (some p) =>
      simp only [sctx_dataBag_mk] at hb
      by_cases h : trackedSuspended st p = true
      · rw [suspChain_mk_some, if_pos h] at hchain
        simp only [List.map_cons, List.mem_cons] at hchain
        push_neg at hchain
        rw [resume_parent_susp cfg n t tg ar db p real st h]
        simp only [setCtxData_other _ _ _ _ hb]
        exact resume_frame cfg p false st b hchain.1 hchain.2
      · simp only [Bool.not_eq_true] at h
        rw [resume_parent_not cfg n t tg ar db p real st h]
        simp [hb]

theorem resume_frame_anc (cfg : Cfg) (c : SimpleActionContext) (real : Bool)
    (st : Store) (b : Nat) (hb : b ≠ c.dataBag) (hanc : b ∉ ancestorBags c) :
    (resume cfg c real st).1 b = st b := by
  refine resume_frame cfg c real st b hb ?_
  intro hmem
  rcases List.mem_map.mp hmem with ⟨a, ha, rfl⟩
  exact hanc (suspChain_sub_anc st c a ha)

theorem resume_state_chain (cfg : Cfg) (c : SimpleActionContext) (real : Bool)
    (st : Store) (hwf : wellFormed c) :
    ∀ a ∈ suspChain st c, stateOf (resume cfg c real st).1 a.dataBag = some .fakeResumed := by
  match c with
  | .mk n t tg ar db none => simp
  | .mk n t tg ar db (some p) =>
      intro a ha
      rw [suspChain_mk_some] at ha
      by_cases h : trackedSuspended st p = true
      · rw [if_pos h] at ha
        have hdb := wellFormed_bag_not_anc n t tg ar db p hwf
        rw [resume_parent_susp cfg n t tg ar db p real st h]
        have hadb : a.dataBag ≠ db := by
          intro heq
          refine hdb ?_
          rw [← heq]
          simp only [List.mem_cons] at ha ⊢
          rcases ha with rfl | ha
          · exact Or.inl rfl
          · exact Or.inr (suspChain_sub_anc st p a ha)
        simp only [stateOf_setCtxData_other _ _ _ _ hadb]
        simp only [List.mem_cons] at ha
        rcases ha with rfl | ha
        · have := resume_state_self cfg a false st
          simpa using this
        · exact resume_state_chain cfg p false st
            (wellFormed_parent n t tg ar db p hwf) a ha
      · rw [if_neg (by simp [h])] at ha
        simp at ha

/-! ## Suspend lemmas -/

theorem suspend_frame_anc (cfg : Cfg) (c : SimpleActionContext) (st : Store)
    (b : Nat) (hb : b ≠ c.dataBag) (hanc : b ∉ ancestorBags c) :
    (suspend cfg c st).1 b = st b := by
  match c with
  | .mk n t tg ar db none =>
      rw [suspend_parent_none]
      simp only [sctx_dataBag_mk] at hb
      simp [hb]
  | .mk n t tg ar db (some p) =>
      simp only [sctx_dataBag_mk] at hb
      simp only [ancestorBags_mk_some, List.mem_cons] at hanc
      push_neg at hanc
      by_cases h : trackedFake (setCtxData st db ⟨none, some .suspended⟩) p = true
      · rw [suspend_parent_fake cfg n t tg ar db p st h]
        have hrec := suspend_frame_anc cfg p
          (setCtxData st db ⟨none, some .suspended⟩) b hanc.1 hanc.2
        rw [hrec]
        simp [hb]
      · simp only [Bool.not_eq_true] at h
        rw [suspend_parent_notfake cfg n t tg ar db p st h]
        simp [hb]

theorem suspend_trace (cfg : Cfg) (c : SimpleActionContext) (st : Store)
    (hwf : wellFormed c) :
    (suspend cfg c st).2 =
      if cfg.hasOnSuspend then
        (c :: fakeChain st c).map (fun a => Event.onSuspend a (some .suspended))
      else [] := by
  match c with
  | .mk n t tg ar db none =>
      rw [suspend_parent_none]
      by_cases h : cfg.hasOnSuspend = true <;> simp [h]
  | .mk n t tg ar db (some p) =>
      have hdb := wellFormed_bag_not_anc n t tg ar db p hwf
      simp only [List.mem_cons] at hdb
      push_neg at hdb
      have hcong : trackedFake (setCtxData st db ⟨none, some .suspended⟩) p =
          trackedFake st p := by
        refine trackedFake_congr st _ p ?_
        exact setCtxData_other st db p.dataBag _ (fun he => hdb.1 he.symm)
      by_cases h : trackedFake st p = true
      · rw [suspend_parent_fake cfg n t tg ar db p st (hcong.trans h)]
        have ih := suspend_trace cfg p (setCtxData st db ⟨none, some .suspended⟩)
          (wellFormed_parent n t tg ar db p hwf)
        have hchain : fakeChain (setCtxData st db ⟨none, some .suspended⟩) p =
            fakeChain st p := by
          refine fakeChain_congr st _ p ?_
          intro b hb
          refine setCtxData_other st db b _ ?_
          intro he
          exact hdb.2 (he ▸ hb)
        rw [hchain] at ih
        rw [fakeChain_mk_some, if_pos h, ih]
        by_cases hs : cfg.hasOnSuspend = true <;> simp [hs]
      · simp only [Bool.not_eq_true] at h
        rw [suspend_parent_notfake cfg n t tg ar db p st (hcong.trans h)]
        rw [fakeChain_mk_some, h]
        by_cases hs : cfg.hasOnSuspend = true <;> simp [hs]

theorem suspend_state_self (cfg : Cfg) (c : SimpleActionContext) (st : Store)
    (hwf : wellFormed c) :
    stateOf (suspend cfg c st).1 c.dataBag = some .suspended := by
  match c with
  | .mk n t tg ar db none =>
      rw [suspend_parent_none]
      simp
  | .mk n t tg ar db (some p) =>
      have hdb := wellFormed_bag_not_anc n t tg ar db p hwf
      simp only [List.mem_cons] at hdb
      push_neg at hdb
      by_cases h : trackedFake (setCtxData st db ⟨none, some .suspended⟩) p = true
      · rw [suspend_parent_fake cfg n t tg ar db p st h]
        have hrec := suspend_frame_anc cfg p
          (setCtxData st db ⟨none, some .suspended⟩) db
          (fun he => hdb.1 he) hdb.2
        simp only [sctx_dataBag_mk, stateOf]
        rw [hrec]
        have := stateOf_setCtxData_self st db none TState.suspended
        simpa [stateOf] using this
      · simp only [Bool.not_eq_true] at h
        rw [suspend_parent_notfake cfg n t tg ar db p st h]
        simp

theorem suspend_state_chain (cfg : Cfg) (c : SimpleActionContext) (st : Store)
    (hwf : wellFormed c) :
    ∀ a ∈ fakeChain st c, stateOf (suspend cfg c st).1 a.dataBag = some .suspended := by
  match c with
  | .mk n t tg ar db none => simp
  | .mk n t tg ar db (some p) =>
      intro a ha
      have hdb := wellFormed_bag_not_anc n t tg ar db p hwf
      simp only [List.mem_cons] at hdb
      push_neg at hdb
      have hcong : trackedFake (setCtxData st db ⟨none, some .suspended⟩) p =
          trackedFake st p := by
        refine trackedFake_congr st _ p ?_
        exact setCtxData_other st db p.dataBag _ (fun he => hdb.1 he.symm)
      rw [fakeChain_mk_some] at ha
      by_cases h : trackedFake st p = true
      · rw [if_pos h] at ha
        rw [suspend_parent_fake cfg n t tg ar db p st (hcong.trans h)]
        have hchain : fakeChain (setCtxData st db ⟨none, some .suspended⟩) p =
            fakeChain st p := by
          refine fakeChain_congr st _ p ?_
          intro b hb
          refine setCtxData_other st db b _ ?_
          intro he
          exact hdb.2 (he ▸ hb)
        simp only [List.mem_cons] at ha
        rcases ha with rfl | ha
        · exact suspend_state_self cfg a _ (wellFormed_parent n t tg ar db a hwf)
        · have ih := suspend_state_chain cfg p
            (setCtxData st db ⟨none, some .suspended⟩)
            (wellFormed_parent n t tg ar db p hwf) a
          rw [hchain] at ih
          exact ih ha
      · rw [if_neg (by simp [h])] at ha
        simp at ha

theorem suspend_bags (cfg : Cfg) (c : SimpleActionContext) (st : Store) :
    ∀ e ∈ (suspend cfg c st).2, e.bag ∈ c.dataBag :: ancestorBags c := by
  match c with
  | .mk n t tg ar db none =>
      intro e he
      rw [suspend_parent_none] at he
      by_cases h : cfg.hasOnSuspend = true
      · simp [h] at he
        simp [he]
      · simp only [Bool.not_eq_true] at h
        simp [h] at he
  | .mk n t tg ar db (some p) =>
      intro e he
      by_cases h : trackedFake (setCtxData st db ⟨none, some .suspended⟩) p = true
      · rw [suspend_parent_fake cfg n t tg ar db p st h] at he
        simp only [List.mem_append] at he
        rcases he with he | he
        · by_cases hs : cfg.hasOnSuspend = true
          · simp [hs] at he
            simp [he]
          · simp only [Bool.not_eq_true] at hs
            simp [hs] at he
        · have := suspend_bags cfg p (setCtxData st db ⟨none, some .suspended⟩) e he
          simp only [List.mem_cons] at this ⊢
          rcases this with h1 | h1
          · exact Or.inr (by simp [h1])
          · exact Or.inr (by simp [h1])
      · simp only [Bool.not_eq_true] at h
        rw [suspend_parent_notfake cfg n t tg ar db p st h] at he
        by_cases hs : cfg.hasOnSuspend = true
        · simp [hs] at he
          simp [he]
        · simp only [Bool.not_eq_true] at hs
          simp [hs] at he

theorem resume_bags (cfg : Cfg) (c : SimpleActionContext) (real : Bool)
    (st : Store) :
    ∀ e ∈ (resume cfg c real st).2, e.bag ∈ c.dataBag :: ancestorBags c := by
  intro e he
  rw [resume_trace] at he
  by_cases h : cfg.hasOnResume = true
  · simp only [h, if_true, List.mem_append, List.mem_map, List.mem_reverse] at he
    rcases he with ⟨a, ha, rfl⟩ | he
    · simp only [event_bag_onResume, List.mem_cons]
      exact Or.inr (suspChain_sub_anc st c a ha)
    · simp only [List.mem_singleton] at he
      subst he
      simp
  · simp only [Bool.not_eq_true] at h
    simp [h] at he

theorem finish_bags (cfg : Cfg) (c : SimpleActionContext)
    (r : ActionTrackingResult) (v : Val) (st : Store) :
    ∀ e ∈ (finish cfg c r v st).2, e.bag ∈ c.dataBag :: ancestorBags c := by
  intro e he
  match hc : c with
  | .mk n t tg ar db none =>
      rw [finish_not_susp cfg _ r v st (by simp)] at he
      simp only [List.mem_singleton] at he
      subst he
      simp
  | .mk n t tg ar db (some p) =>
      by_cases h : trackedSuspended st p = true
      · rw [finish_parent_susp cfg _ r v st p (by simp) h] at he
        simp only [List.append_assoc, List.mem_append] at he
        rcases he with he | he | he
        · have := resume_bags cfg p false st e he
          simp only [List.mem_cons] at this ⊢
          rcases this with h1 | h1
          · exact Or.inr (by simp [h1])
          · exact Or.inr (by simp [h1])
        · simp only [List.mem_singleton] at he
          subst he
          simp
        · have := suspend_bags cfg p _ e he
          simp only [List.mem_cons] at this ⊢
          rcases this with h1 | h1
          · exact Or.inr (by simp [h1])
          · exact Or.inr (by simp [h1])
      · rw [finish_not_susp cfg _ r v st ?hns] at he
        case hns =>
          intro q hq
          simp only [sctx_parentContext_mk, Option.some_inj] at hq
          subst hq
          simp only [Bool.not_eq_true] at h
          exact h
        simp only [List.mem_singleton] at he
        subst he
        simp

/-! ## Generalized well-formedness helpers and a fine suspend frame -/

theorem wellFormed_parent_of (c p : SimpleActionContext)
    (hp : c.parentContext = some p) (h : wellFormed c) : wellFormed p := by
  match c with
  | .mk n t tg a db pc =>
      simp only [sctx_parentContext_mk] at hp
      subst hp
      exact wellFormed_parent n t tg a db p h

theorem wellFormed_bag_not_of (c p : SimpleActionContext)
    (hp : c.parentContext = some p) (h : wellFormed c) :
    c.dataBag ∉ p.dataBag :: ancestorBags p := by
  match c with
  | .mk n t tg a db pc =>
      simp only [sctx_parentContext_mk] at hp
      subst hp
      simpa using wellFormed_bag_not_anc n t tg a db p h

theorem suspend_frame_fine (cfg : Cfg) (c : SimpleActionContext) (st : Store)
    (hwf : wellFormed c) (b : Nat) (hb : b ≠ c.dataBag)
    (hchain : b ∉ (fakeChain st c).map (·.dataBag)) :
    (suspend cfg c st).1 b = st b := by
  match c with
  | .mk n t tg ar db none =>
      rw [suspend_parent_none]
      simp only [sctx_dataBag_mk] at hb
      simp [hb]
  | .mk n t tg ar db (some p) =>
      simp only [sctx_dataBag_mk] at hb
      have hdb := wellFormed_bag_not_anc n t tg ar db p hwf
      simp only [List.mem_cons] at hdb
      push_neg at hdb
      have hcong : trackedFake (setCtxData st db ⟨none, some .suspended⟩) p =
          trackedFake st p := by
        refine trackedFake_congr st _ p ?_
        exact setCtxData_other st db p.dataBag _ (fun he => hdb.1 he.symm)
      by_cases h : trackedFake st p = true
      · rw [suspend_parent_fake cfg n t tg ar db p st (hcong.trans h)]
        rw [fakeChain_mk_some, if_pos h] at hchain
        simp only [List.map_cons, List.mem_cons] at hchain
        push_neg at hchain
        have hchain2 : fakeChain (setCtxData st db ⟨none, some .suspended⟩) p =
            fakeChain st p := by
          refine fakeChain_congr st _ p ?_
          intro b2 hb2
          refine setCtxData_other st db b2 _ ?_
          intro he
          exact hdb.2 (he ▸ hb2)
        have hrec := suspend_frame_fine cfg p
          (setCtxData st db ⟨none, some .suspended⟩)
          (wellFormed_parent n t tg ar db p hwf) b hchain.1 ?_
        · rw [hrec]
          simp [hb]
        · rw [hchain2]
          exact hchain.2
      · simp only [Bool.not_eq_true] at h
        rw [suspend_parent_notfake cfg n t tg ar db p st (hcong.trans h)]
        simp [hb]

/-- C6: `suspend` sets the context's own state to `suspended` and fires its
`onSuspend` hook (if configured) first; it recurses into the parent exactly
when the parent holds tracking data with `startAccepted` true and state
`fakeResumed` — in which case the parent ends suspended and its hook fires
right after the child's — and never propagates through a parent in any other
state (in particular `realResumed`), all other bags being left untouched. -/
theorem c6_suspend_order_and_propagation (cfg : Cfg) (c : SimpleActionContext)
    (st : Store) (hwf : wellFormed c) :
    stateOf (suspend cfg c st).1 c.dataBag = some .suspended ∧
    (cfg.hasOnSuspend = true →
      (suspend cfg c st).2.head? = some (.onSuspend c (some .suspended))) ∧
    (∀ p, c.parentContext = some p →
      (trackedFake st p = true →
        stateOf (suspend cfg c st).1 p.dataBag = some .suspended ∧
        (cfg.hasOnSuspend = true →
          (suspend cfg c st).2[1]? = some (.onSuspend p (some .suspended)))) ∧
      (trackedFake st p = false →
        (∀ b, b ≠ c.dataBag → (suspend cfg c st).1 b = st b) ∧
        (suspend cfg c st).2 =
          (if cfg.hasOnSuspend then [Event.onSuspend c (some .suspended)] else []))) := by
  have htr := suspend_trace cfg c st hwf
  refine ⟨suspend_state_self cfg c st hwf, ?_, ?_⟩
  · intro hs
    rw [htr, if_pos hs]
    simp
  · intro p hp
    have hchaineq : fakeChain st c = if trackedFake st p then p :: fakeChain st p else [] := by
      match c with
      | .mk n t tg ar db pc =>
          simp only [sctx_parentContext_mk] at hp
          subst hp
          exact fakeChain_mk_some st n t tg ar db p
    constructor
    · intro hfake
      constructor
      · refine suspend_state_chain cfg c st hwf p ?_
        rw [hchaineq, if_pos hfake]
        simp
      · intro hs
        rw [htr, if_pos hs, hchaineq, if_pos hfake]
        simp
    · intro hfake
      constructor
      · intro b hb
        refine suspend_frame_fine cfg c st hwf b hb ?_
        rw [hchaineq, hfake]
        simp
      · rw [htr, hchaineq, hfake]
        by_cases hs : cfg.hasOnSuspend = true <;> simp [hs]

/-- C6 witness: a concrete tracked child whose parent is `fakeResumed` is
re-suspended right after the child's own suspend hook. -/
theorem c6_witness :
    stateOf (suspend ⟨none, false, fun _ => true, true, true⟩
        (.mk "c" .sync 0 [] 0 (some (.mk "p" .sync 0 [] 1 none)))
        (fun b => if b = 0 then some ⟨some true, some .realResumed⟩
                  else if b = 1 then some ⟨some true, some .fakeResumed⟩
                  else none)).1 0 = some .suspended := by
  have h := c6_suspend_order_and_propagation
    ⟨none, false, fun _ => true, true, true⟩
    (.mk "c" .sync 0 [] 0 (some (.mk "p" .sync 0 [] 1 none)))
    (fun b => if b = 0 then some ⟨some true, some .realResumed⟩
              else if b = 1 then some ⟨some true, some .fakeResumed⟩
              else none)
    (by decide)
  exact h.1

/-- C7 (amended): `resume(ctx, real)` fake-resumes exactly the contiguous
chain of tracked-suspended ancestors starting at the parent, before the
context's own state is set and its own hook fires: each chain member is set
to `fakeResumed` (never `realResumed`) regardless of `real`, their hooks
fire outermost-first ahead of the context's own `onResume`, and every bag
outside the context and that chain is untouched (propagation stops at the
first ancestor that is not tracked-suspended). -/
theorem c7_resume_propagation (cfg : Cfg) (c : SimpleActionContext)
    (real : Bool) (st : Store) (hwf : wellFormed c) :
    (∀ a ∈ suspChain st c,
       stateOf (resume cfg c real st).1 a.dataBag = some .fakeResumed) ∧
    stateOf (resume cfg c real st).1 c.dataBag =
      some (if real then .realResumed else .fakeResumed) ∧
    (cfg.hasOnResume = true →
      (resume cfg c real st).2 =
        (suspChain st c).reverse.map
            (fun a => Event.onResume a (some .fakeResumed)) ++
          [Event.onResume c (some (if real then .realResumed else .fakeResumed))]) ∧
    (∀ b, b ≠ c.dataBag → b ∉ (suspChain st c).map (·.dataBag) →
      (resume cfg c real st).1 b = st b) := by
  refine ⟨resume_state_chain cfg c real st hwf, resume_state_self cfg c real st, ?_, ?_⟩
  · intro hr
    rw [resume_trace, if_pos hr]
  · intro b hb hchain
    exact resume_frame cfg c real st b hb hchain

/-- C7 witness: with a suspended tracked parent, a real resume of the child
fake-resumes the parent and really resumes the child. -/
theorem c7_witness :
    stateOf (resume ⟨none, false, fun _ => true, true, true⟩
        (.mk "c" .sync 0 [] 0 (some (.mk "p" .sync 0 [] 1 none))) true
        (fun b => if b = 0 then some ⟨some true, some .started⟩
                  else if b = 1 then some ⟨some true, some .suspended⟩
                  else none)).1 1 = some .fakeResumed := by
  have h := c7_resume_propagation ⟨none, false, fun _ => true, true, true⟩
    (.mk "c" .sync 0 [] 0 (some (.mk "p" .sync 0 [] 1 none))) true
    (fun b => if b = 0 then some ⟨some true, some .started⟩
              else if b = 1 then some ⟨some true, some .suspended⟩
              else none)
    (by decide)
  refine h.1 (.mk "p" .sync 0 [] 1 none) ?_
  rw [suspChain_mk_some]
  norm_num [trackedSuspended, getCtxData]

/-- C7 counterexample: the claim demands that *every* tracked-suspended
ancestor be resumed, but the code stops at the first ancestor that is not
tracked-suspended: here the grandparent (bag 2) is tracked and suspended,
yet stays suspended and receives no `onResume`, because the parent (bag 1)
is merely `started`. -/
theorem c7_counterexample :
    ((fun b => if b = 2 then some ⟨some true, some TState.suspended⟩
               else if b = 1 then some ⟨some true, some TState.started⟩
               else if b = 0 then some ⟨some true, some TState.started⟩
               else none : Store) 2 =
        some ⟨some true, some TState.suspended⟩) ∧
    stateOf (resume ⟨none, false, fun _ => true, true, true⟩
        (.mk "c" .sync 0 []
          0 (some (.mk "p" .sync 0 [] 1 (some (.mk "g" .sync 0 [] 2 none))))) true
        (fun b => if b = 2 then some ⟨some true, some TState.suspended⟩
                  else if b = 1 then some ⟨some true, some TState.started⟩
                  else if b = 0 then some ⟨some true, some TState.started⟩
                  else none)).1 2 = some TState.suspended ∧
    (resume ⟨none, false, fun _ => true, true, true⟩
        (.mk "c" .sync 0 []
          0 (some (.mk "p" .sync 0 [] 1 (some (.mk "g" .sync 0 [] 2 none))))) true
        (fun b => if b = 2 then some ⟨some true, some TState.suspended⟩
                  else if b = 1 then some ⟨some true, some TState.started⟩
                  else if b = 0 then some ⟨some true, some TState.started⟩
                  else none)).2 =
      [Event.onResume
        (.mk "c" .sync 0 []
          0 (some (.mk "p" .sync 0 [] 1 (some (.mk "g" .sync 0 [] 2 none)))))
        (some TState.realResumed)] := by
  refine ⟨rfl, ?_, ?_⟩
  · rw [resume_parent_not _ _ _ _ _ _ _ _ _ (by decide)]
    norm_num [stateOf, setCtxData]
  · rw [resume_parent_not _ _ _ _ _ _ _ _ _ (by decide)]
    norm_num

/-- C2: when the child's parent holds tracking data with `startAccepted` true
and state `suspended`, `finish` fakely resumes it — the parent's `onResume`
firing last among the resume events, immediately before the child's
`onFinish` (which already sees the child `finished`) — and re-suspends it
immediately after, the parent's `onSuspend` firing first among the trailing
events; when the parent is untracked or not suspended, no extra events occur
and no other bag changes. -/
theorem c2_finish_fake_pair (cfg : Cfg) (c : SimpleActionContext)
    (r : ActionTrackingResult) (v : Val) (st : Store) (hwf : wellFormed c) :
    (∀ p, c.parentContext = some p → trackedSuspended st p = true →
      ∃ trR trS,
        (finish cfg c r v st).2 =
          trR ++ [Event.onFinish c r v (some .finished)] ++ trS ∧
        (cfg.hasOnResume = true →
          trR.getLast? = some (Event.onResume p (some .fakeResumed))) ∧
        (cfg.hasOnSuspend = true →
          trS.head? = some (Event.onSuspend p (some .suspended))) ∧
        stateOf (finish cfg c r v st).1 c.dataBag = some .finished ∧
        stateOf (finish cfg c r v st).1 p.dataBag = some .suspended) ∧
    ((∀ p, c.parentContext = some p → trackedSuspended st p = false) →
      (finish cfg c r v st).2 = [Event.onFinish c r v (some .finished)] ∧
      (∀ b, b ≠ c.dataBag → (finish cfg c r v st).1 b = st b)) := by
  constructor
  · intro p hp hsusp
    have hwfp := wellFormed_parent_of c p hp hwf
    have hnot := wellFormed_bag_not_of c p hp hwf
    simp only [List.mem_cons] at hnot
    push_neg at hnot
    rw [finish_parent_susp cfg c r v st p hp hsusp]
    refine ⟨(resume cfg p false st).2,
      (suspend cfg p
        (setCtxData (resume cfg p false st).1 c.dataBag ⟨none, some .finished⟩)).2,
      by simp, ?_, ?_, ?_, ?_⟩
    · intro hr
      rw [resume_trace, if_pos hr]
      rw [List.getLast?_concat]
      norm_num
    · intro hs
      rw [suspend_trace cfg p _ hwfp, if_pos hs]
      simp
    · have hfr := suspend_frame_anc cfg p
        (setCtxData (resume cfg p false st).1 c.dataBag ⟨none, some .finished⟩)
        c.dataBag (fun he => hnot.1 he) hnot.2
      simp only [stateOf] at hfr ⊢
      rw [hfr]
      have := stateOf_setCtxData_self (resume cfg p false st).1 c.dataBag none
        TState.finished
      simpa [stateOf] using this
    · exact suspend_state_self cfg p _ hwfp
  · intro hns
    rw [finish_not_susp cfg c r v st hns]
    refine ⟨rfl, ?_⟩
    intro b hb
    simp [hb]

/-- C2 witness: concrete child with a tracked suspended parent — the parent
ends re-suspended and the child finished. -/
theorem c2_witness :
    stateOf (finish ⟨none, false, fun _ => true, true, true⟩
        (.mk "c" .sync 0 [] 0 (some (.mk "p" .sync 0 [] 1 none))) .ret 7
        (fun b => if b = 0 then some ⟨some true, some .realResumed⟩
                  else if b = 1 then some ⟨some true, some .suspended⟩
                  else none)).1 1 = some .suspended := by
  have h := (c2_finish_fake_pair ⟨none, false, fun _ => true, true, true⟩
    (.mk "c" .sync 0 [] 0 (some (.mk "p" .sync 0 [] 1 none))) .ret 7
    (fun b => if b = 0 then some ⟨some true, some .realResumed⟩
              else if b = 1 then some ⟨some true, some .suspended⟩
              else none)
    (by decide)).1 (.mk "p" .sync 0 [] 1 none) rfl (by decide)
  rcases h with ⟨trR, trS, -, -, -, -, hstate⟩
  exact hstate

/-! ## Filter unfolding lemmas -/

theorem getCtxData_setCtxData_full (st : Store) (bag : Nat) (x : Bool) (y : TState) :
    getCtxData (setCtxData st bag ⟨some x, some y⟩) bag = some ⟨some x, some y⟩ := by
  unfold getCtxData setCtxData
  cases st bag <;> simp

theorem filter_gate_false (cfg : Cfg) (ctx : ActionContext)
    (hname : truthyName cfg.actionName = true → ctx.name = cfg.actionName.getD "") :
    (truthyName cfg.actionName && ctx.name != cfg.actionName.getD "") = false := by
  by_cases ht : truthyName cfg.actionName = true
  · simp [ht, hname ht]
  · simp only [Bool.not_eq_true] at ht
    simp [ht]

theorem filter_retthr (cfg : Cfg) (st : Store) (ctx : ActionContext)
    (hname : truthyName cfg.actionName = true → ctx.name = cfg.actionName.getD "")
    (hasync : ctx.type = .async)
    (hstep : ctx.asyncStepType = .ret ∨ ctx.asyncStepType = .thr) :
    filter cfg st ctx =
      ((match getCtxData st (chainRoot ctx).dataBag with
        | some d => d.startAccepted == some true
        | none => false), st) := by
  have hgate := filter_gate_false cfg ctx hname
  have hnotsync : ¬ ctx.type = ActionType.sync := by
    rw [hasync]
    simp
  unfold filter
  rw [hgate]
  simp only [Bool.false_eq_true, if_false, if_neg hnotsync]
  rcases hstep with h | h <;> rw [h] <;>
    cases hd : getCtxData st (chainRoot ctx).dataBag <;> simp [hd]

theorem filter_resume_steps (cfg : Cfg) (st : Store) (ctx : ActionContext)
    (hname : truthyName cfg.actionName = true → ctx.name = cfg.actionName.getD "")
    (hasync : ctx.type = .async)
    (hstep : ctx.asyncStepType = .resume ∨ ctx.asyncStepType = .resumeError) :
    filter cfg st ctx = (resumeSuspendSupport cfg, st) := by
  have hgate := filter_gate_false cfg ctx hname
  have hnotsync : ¬ ctx.type = ActionType.sync := by
    rw [hasync]
    simp
  unfold filter
  rw [hgate]
  simp only [Bool.false_eq_true, if_false, if_neg hnotsync]
  rcases hstep with h | h <;> rw [h]

/-- C3: a Return/Throw async step is accepted iff the step-chain's root
context carries tracking data with `startAccepted` true; the store is not
modified, the decision is independent of the configured hooks and user
predicate (only the name restriction matters), and an accepted Spawn step is
exactly what installs `startAccepted := true` at that root. -/
theorem c3_return_throw_acceptance (cfg : Cfg) (st : Store) (ctx : ActionContext)
    (hname : truthyName cfg.actionName = true → ctx.name = cfg.actionName.getD "")
    (hasync : ctx.type = .async)
    (hstep : ctx.asyncStepType = .ret ∨ ctx.asyncStepType = .thr) :
    ((filter cfg st ctx).1 = true ↔
      ∃ d, getCtxData st (chainRoot ctx).dataBag = some d ∧
        d.startAccepted = some true) ∧
    (filter cfg st ctx).2 = st ∧
    (∀ cfg' : Cfg, cfg'.actionName = cfg.actionName →
      (filter cfg' st ctx).1 = (filter cfg st ctx).1) ∧
    (∀ ctx0 : ActionContext, ctx0.type = .async → ctx0.asyncStepType = .spawn →
      (filter cfg st ctx0).1 = true →
      getCtxData (filter cfg st ctx0).2 ctx0.dataBag = some ⟨some true, some .idle⟩) := by
  have heq := filter_retthr cfg st ctx hname hasync hstep
  refine ⟨?_, ?_, ?_, ?_⟩
  · rw [heq]
    cases hd : getCtxData st (chainRoot ctx).dataBag with
    | none => simp [hd]
    | some d =>
        simp only [hd]
        constructor
        · intro h
          simp only [beq_iff_eq] at h
          exact ⟨d, rfl, h⟩
        · rintro ⟨d2, hd2, hacc⟩
          simp only [Option.some_inj] at hd2
          subst hd2
          simp [hacc]
  · rw [heq]
  · intro cfg' hcfg
    have hname' : truthyName cfg'.actionName = true → ctx.name = cfg'.actionName.getD "" := by
      rw [hcfg]
      exact hname
    rw [filter_retthr cfg' st ctx hname' hasync hstep, heq]
  · intro ctx0 h0async h0spawn hacc
    have hnotsync0 : ¬ ctx0.type = ActionType.sync := by
      rw [h0async]
      simp
    unfold filter at hacc ⊢
    by_cases hgate : (truthyName cfg.actionName && ctx0.name != cfg.actionName.getD "") = true
    · rw [hgate] at hacc
      simp at hacc
    · simp only [Bool.not_eq_true] at hgate
      rw [hgate] at hacc ⊢
      simp only [Bool.false_eq_true, if_false, if_neg hnotsync0, h0spawn] at hacc ⊢
      by_cases hu : userFilter cfg ctx0 = true
      · simp only [hu, if_true]
        exact getCtxData_setCtxData_full st ctx0.dataBag true TState.idle
      · simp only [Bool.not_eq_true] at hu
        rw [hu] at hacc
        simp at hacc

/-- C3 witness: a Throw step whose chain root carries accepted tracking data
is accepted without consulting the user predicate. -/
theorem c3_witness :
    (filter ⟨none, true, fun _ => false, false, false⟩
      (fun b => if b = 4 then some ⟨some true, some .suspended⟩ else none)
      (.mk "a" .async .thr 0 [] 4 none
        (some (.mk "a" .async .spawn 0 [] 4 none none)))).1 = true := by
  have h := c3_return_throw_acceptance ⟨none, true, fun _ => false, false, false⟩
    (fun b => if b = 4 then some ⟨some true, some .suspended⟩ else none)
    (.mk "a" .async .thr 0 [] 4 none
      (some (.mk "a" .async .spawn 0 [] 4 none none)))
    (by intro h; simp [truthyName] at h) rfl (Or.inr rfl)
  refine h.1.mpr ⟨⟨some true, some .suspended⟩, ?_, rfl⟩
  simp [getCtxData]

/-- C4 witness: a Return step and its Spawn root simplify to the same simple
context. -/
theorem c4_witness :
    simplifyActionContext (.mk "a" .async .ret 0 [] 5 none
        (some (.mk "a" .async .spawn 0 [] 5 none none))) =
      simplifyActionContext (.mk "a" .async .spawn 0 [] 5 none none) := by
  exact c4_simplify_canonical_idempotent.1 _ _ (by simp)

/-- C8: Resume/ResumeError async steps are accepted exactly when at least one
of the `onResume`/`onSuspend` hooks is configured (no store change); and the
middleware body fails with an internal-inconsistency error when invoked on
such a step with neither hook configured, or on an async step of an
unsupported step type. -/
theorem c8_resume_gating_and_internal_errors (cfg : Cfg) (st : Store)
    (ctx : ActionContext) (next : Next)
    (hname : truthyName cfg.actionName = true → ctx.name = cfg.actionName.getD "")
    (hasync : ctx.type = .async) :
    ((ctx.asyncStepType = .resume ∨ ctx.asyncStepType = .resumeError) →
      (filter cfg st ctx).1 = (cfg.hasOnResume || cfg.hasOnSuspend) ∧
      (filter cfg st ctx).2 = st) ∧
    ((ctx.asyncStepType = .resume ∨ ctx.asyncStepType = .resumeError) →
      cfg.hasOnResume = false → cfg.hasOnSuspend = false →
      mware cfg ctx next st = (st, [], .internalErr ctx.asyncStepType)) ∧
    (ctx.asyncStepType = .other →
      mware cfg ctx next st = (st, [], .internalErr ctx.asyncStepType)) := by
  have hnotsync : ¬ ctx.type = ActionType.sync := by
    rw [hasync]
    simp
  refine ⟨?_, ?_, ?_⟩
  · intro hstep
    rw [filter_resume_steps cfg st ctx hname hasync hstep]
    exact ⟨rfl, rfl⟩
  · intro hstep hr hs
    have hsupp : resumeSuspendSupport cfg = false := by
      simp [resumeSuspendSupport, hr, hs]
    unfold mware
    rw [if_neg hnotsync]
    rcases hstep with h | h <;> rw [h] <;> simp [h, hsupp]
  · intro hstep
    unfold mware
    rw [if_neg hnotsync, hstep]

/-- C8 witness: with no resume/suspend hooks, a Resume step is rejected by
the filter and the middleware body fails loudly if reached anyway. -/
theorem c8_witness :
    (filter ⟨none, false, fun _ => true, false, false⟩ (fun _ => none)
      (.mk "a" .async .resume 0 [] 0 none none)).1 = false ∧
    mware ⟨none, false, fun _ => true, false, false⟩
      (.mk "a" .async .resume 0 [] 0 none none)
      (fun st => (st, [], .ok 0)) (fun _ => none) =
      ((fun _ => none), [], .internalErr .resume) := by
  have h := c8_resume_gating_and_internal_errors
    ⟨none, false, fun _ => true, false, false⟩ (fun _ => none)
    (.mk "a" .async .resume 0 [] 0 none none) (fun st => (st, [], .ok 0))
    (by intro hc; simp [truthyName] at hc) rfl
  constructor
  · rw [(h.1 (Or.inl rfl)).1]
    rfl
  · exact h.2.1 (Or.inl rfl) rfl rfl

/-- C9 (amended): configuration fails synchronously exactly when the target
is not an object, its `model` is not a `Model` instance, or `actionName` is
supplied, truthy (non-empty) and not a function member; otherwise it
succeeds and returns the middleware. -/
theorem c9_config_validation (hooks : Cfg) (m : JSVal) (an : Option String) :
    actionTrackingMiddleware .nonObject hooks =
      .error "target must be an object" ∧
    (isModelInstance m = false →
      actionTrackingMiddleware (.obj m an) hooks = .error "target must be a model") ∧
    (isModelInstance m = true → truthyName an = true →
      isFunctionMember m (an.getD "") = false →
      actionTrackingMiddleware (.obj m an) hooks =
        .error "action must be a function or undefined") ∧
    (isModelInstance m = true →
      (truthyName an = false ∨ isFunctionMember m (an.getD "") = true) →
      actionTrackingMiddleware (.obj m an) hooks = .ok ()) := by
  refine ⟨rfl, ?_, ?_, ?_⟩
  · intro hm
    unfold actionTrackingMiddleware
    simp [hm]
  · intro hm ht hf
    unfold actionTrackingMiddleware
    simp [hm, ht, hf]
  · intro hm hcase
    unfold actionTrackingMiddleware
    rcases hcase with h | h <;> simp [hm, h]

/-- C9 witness: a proper model with a function member configures fine, and a
non-model target fails fast. -/
theorem c9_witness :
    actionTrackingMiddleware (.obj (.obj true [("f", .func)]) (some "f"))
      ⟨none, false, fun _ => true, false, false⟩ = .ok () := by
  have h := c9_config_validation ⟨none, false, fun _ => true, false, false⟩
    (.obj true [("f", .func)]) (some "f")
  exact h.2.2.2 rfl (Or.inr rfl)

/-- C9 counterexample: `actionName` may be supplied as the empty string — a
member name that is not a function on the model — yet configuration
succeeds, because the source only checks a *truthy* `actionName`; the claim
as stated demands a throw for every supplied non-function `actionName`. -/
theorem c9_counterexample :
    actionTrackingMiddleware (.obj (.obj true []) (some ""))
      ⟨none, false, fun _ => true, false, false⟩ = .ok () ∧
    isFunctionMember (.obj true []) "" = false := by
  exact ⟨rfl, rfl⟩

/-! ## Hook state visibility (post-transition states) -/

/-- What a hook observes in the tracking data while running should be the
post-transition state of its operation. -/
def eventSeenOk : Event → Prop
  | .onStart _ s => s = some .started
  | .onResume _ s => s = some .realResumed ∨ s = some .fakeResumed
  | .onSuspend _ s => s = some .suspended
  | .onFinish _ _ _ s => s = some .finished

theorem resume_seen (cfg : Cfg) (c : SimpleActionContext) (real : Bool)
    (st : Store) : ∀ e ∈ (resume cfg c real st).2, eventSeenOk e := by
  intro e he
  rw [resume_trace] at he
  by_cases h : cfg.hasOnResume = true
  · simp only [h, if_true, List.mem_append, List.mem_map, List.mem_reverse] at he
    rcases he with ⟨a, _, rfl⟩ | he
    · exact Or.inr rfl
    · simp only [List.mem_singleton] at he
      subst he
      by_cases hr : real = true
      · subst hr
        exact Or.inl (by simp)
      · simp only [Bool.not_eq_true] at hr
        subst hr
        exact Or.inr (by simp)
  · simp only [Bool.not_eq_true] at h
    simp [h] at he

theorem suspend_seen (cfg : Cfg) (c : SimpleActionContext) (st : Store) :
    ∀ e ∈ (suspend cfg c st).2, eventSeenOk e := by
  match c with
  | .mk n t tg ar db none =>
      intro e he
      rw [suspend_parent_none] at he
      by_cases h : cfg.hasOnSuspend = true
      · simp only [h, if_true, List.mem_singleton] at he
        subst he
        rfl
      · simp only [Bool.not_eq_true] at h
        simp [h] at he
  | .mk n t tg ar db (some p) =>
      intro e he
      by_cases h : trackedFake (setCtxData st db ⟨none, some .suspended⟩) p = true
      · rw [suspend_parent_fake cfg n t tg ar db p st h] at he
        simp only [List.mem_append] at he
        rcases he with he | he
        · by_cases hs : cfg.hasOnSuspend = true
          · simp only [hs, if_true, List.mem_singleton] at he
            subst he
            rfl
          · simp only [Bool.not_eq_true] at hs
            simp [hs] at he
        · exact suspend_seen cfg p _ e he
      · simp only [Bool.not_eq_true] at h
        rw [suspend_parent_notfake cfg n t tg ar db p st h] at he
        by_cases hs : cfg.hasOnSuspend = true
        · simp only [hs, if_true, List.mem_singleton] at he
          subst he
          rfl
        · simp only [Bool.not_eq_true] at hs
          simp [hs] at he

theorem finish_seen (cfg : Cfg) (c : SimpleActionContext)
    (r : ActionTrackingResult) (v : Val) (st : Store) :
    ∀ e ∈ (finish cfg c r v st).2, eventSeenOk e := by
  intro e he
  match hc : c.parentContext with
  | none =>
      rw [finish_not_susp cfg c r v st (by rw [hc]; intro q h; cases h)] at he
      simp only [List.mem_singleton] at he
      subst he
      rfl
  | some p =>
      by_cases h : trackedSuspended st p = true
      · rw [finish_parent_susp cfg c r v st p hc h] at he
        simp only [List.append_assoc, List.mem_append] at he
        rcases he with he | he | he
        · exact resume_seen cfg p false st e he
        · simp only [List.mem_singleton] at he
          subst he
          rfl
        · exact suspend_seen cfg p _ e he
      · simp only [Bool.not_eq_true] at h
        rw [finish_not_susp cfg c r v st ?hp] at he
        case hp =>
          intro q hq
          rw [hc] at hq
          simp only [Option.some_inj] at hq
          subst hq
          exact h
        simp only [List.mem_singleton] at he
        subst he
        rfl

/-- C10: every lifecycle operation writes the new state into the tracking
data before invoking the corresponding user hook, so every hook invocation
observes the post-transition state (`onStart` sees `started`, `onResume`
sees `realResumed`/`fakeResumed`, `onSuspend` sees `suspended`, `onFinish`
sees `finished`). -/
theorem c10_hooks_see_post_state (cfg : Cfg) (c : SimpleActionContext)
    (st : Store) :
    (∀ e ∈ (start cfg c st).2, eventSeenOk e) ∧
    (∀ real, ∀ e ∈ (resume cfg c real st).2, eventSeenOk e) ∧
    (∀ e ∈ (suspend cfg c st).2, eventSeenOk e) ∧
    (∀ r v, ∀ e ∈ (finish cfg c r v st).2, eventSeenOk e) := by
  refine ⟨?_, fun real => resume_seen cfg c real st, suspend_seen cfg c st,
    fun r v => finish_seen cfg c r v st⟩
  intro e he
  unfold start at he
  simp only [List.mem_singleton] at he
  subst he
  show stateOf (setCtxData st c.dataBag ⟨none, some .started⟩) c.dataBag = some .started
  simp

/-- C10 witness: a concrete `onStart` invocation observes state `started`. -/
theorem c10_witness :
    eventSeenOk (.onStart (.mk "a" .sync 0 [] 0 none) (some .started)) := by
  refine (c10_hooks_see_post_state ⟨none, false, fun _ => true, true, true⟩
    (.mk "a" .sync 0 [] 0 none) (fun _ => none)).1
    (.onStart (.mk "a" .sync 0 [] 0 none) (some .started)) ?_
  exact List.mem_singleton.mpr rfl

/-! ## Per-invocation event views -/

theorem eventsFor_append (bag : Nat) (l1 l2 : List Event) :
    eventsFor bag (l1 ++ l2) = eventsFor bag l1 ++ eventsFor bag l2 := by
  unfold eventsFor
  exact List.filter_append l1 l2

theorem eventsFor_nil_of (bag : Nat) (l : List Event)
    (h : ∀ e ∈ l, e.bag ≠ bag) : eventsFor bag l = [] := by
  unfold eventsFor
  refine List.filter_eq_nil.mpr ?_
  intro e he
  simp [h e he]

theorem wf_self_not_anc (c : SimpleActionContext) (hwf : wellFormed c) :
    c.dataBag ∉ ancestorBags c := by
  unfold wellFormed at hwf
  exact (List.nodup_cons.mp hwf).1

theorem start_own_events (cfg : Cfg) (c : SimpleActionContext) (st : Store) :
    eventsFor c.dataBag (start cfg c st).2 = [Event.onStart c (some .started)] := by
  unfold start eventsFor
  simp

theorem resume_own_events (cfg : Cfg) (c : SimpleActionContext) (real : Bool)
    (st : Store) (hwf : wellFormed c) :
    eventsFor c.dataBag (resume cfg c real st).2 =
      if cfg.hasOnResume then
        [Event.onResume c (some (if real then .realResumed else .fakeResumed))]
      else [] := by
  rw [resume_trace]
  by_cases h : cfg.hasOnResume = true
  · rw [if_pos h, if_pos h, eventsFor_append]
    rw [eventsFor_nil_of]
    · unfold eventsFor
      simp
    · intro e he
      simp only [List.mem_map, List.mem_reverse] at he
      rcases he with ⟨a, ha, rfl⟩
      simp only [event_bag_onResume]
      intro heq
      exact wf_self_not_anc c hwf (heq ▸ suspChain_sub_anc st c a ha)
  · simp only [Bool.not_eq_true] at h
    rw [h]
    simp [eventsFor]

theorem suspend_own_events (cfg : Cfg) (c : SimpleActionContext) (st : Store)
    (hwf : wellFormed c) :
    eventsFor c.dataBag (suspend cfg c st).2 =
      if cfg.hasOnSuspend then [Event.onSuspend c (some .suspended)] else [] := by
  rw [suspend_trace cfg c st hwf]
  by_cases h : cfg.hasOnSuspend = true
  · rw [if_pos h, if_pos h]
    simp only [List.map_cons]
    show eventsFor c.dataBag ([Event.onSuspend c (some .suspended)] ++
      (fakeChain st c).map (fun a => Event.onSuspend a (some .suspended))) = _
    rw [eventsFor_append]
    rw [eventsFor_nil_of c.dataBag ((fakeChain st c).map _)]
    · unfold eventsFor
      simp
    · intro e he
      simp only [List.mem_map] at he
      rcases he with ⟨a, ha, rfl⟩
      simp only [event_bag_onSuspend]
      intro heq
      exact wf_self_not_anc c hwf (heq ▸ fakeChain_sub_anc st c a ha)
  · simp only [Bool.not_eq_true] at h
    rw [h]
    simp [eventsFor]

theorem finish_own_events (cfg : Cfg) (c : SimpleActionContext)
    (r : ActionTrackingResult) (v : Val) (st : Store) (hwf : wellFormed c) :
    eventsFor c.dataBag (finish cfg c r v st).2 =
      [Event.onFinish c r v (some .finished)] := by
  match hc : c.parentContext with
  | none =>
      rw [finish_not_susp cfg c r v st (by rw [hc]; intro q h; cases h)]
      unfold eventsFor
      simp
  | some p =>
      have hnot := wellFormed_bag_not_of c p hc hwf
      simp only [List.mem_cons] at hnot
      push_neg at hnot
      by_cases h : trackedSuspended st p = true
      · rw [finish_parent_susp cfg c r v st p hc h]
        rw [List.append_assoc, eventsFor_append, eventsFor_append]
        rw [eventsFor_nil_of c.dataBag (resume cfg p false st).2]
        · rw [eventsFor_nil_of c.dataBag (suspend cfg p _).2]
          · unfold eventsFor
            simp
          · intro e he
            have := suspend_bags cfg p _ e he
            simp only [List.mem_cons] at this
            intro heq
            rcases this with h1 | h1
            · exact hnot.1 (heq ▸ h1)
            · exact hnot.2 (heq ▸ h1)
        · intro e he
          have := resume_bags cfg p false st e he
          simp only [List.mem_cons] at this
          intro heq
          rcases this with h1 | h1
          · exact hnot.1 (heq ▸ h1)
          · exact hnot.2 (heq ▸ h1)
      · simp only [Bool.not_eq_true] at h
        rw [finish_not_susp cfg c r v st ?hp]
        case hp =>
          intro q hq
          rw [hc] at hq
          simp only [Option.some_inj] at hq
          subst hq
          exact h
        unfold eventsFor
        simp

theorem wrappedNext_parts (cfg : Cfg) (c : SimpleActionContext) (next : Next)
    (st : Store) :
    wrappedNext cfg c next st =
      ((suspend cfg c ((next (resume cfg c true st).1).1)).1,
       (resume cfg c true st).2 ++ (next (resume cfg c true st).1).2.1 ++
         (suspend cfg c ((next (resume cfg c true st).1).1)).2,
       (next (resume cfg c true st).1).2.2) := rfl

theorem mware_sync_spec (cfg : Cfg) (ctx : ActionContext) (next : Next)
    (st : Store) (hsync : ctx.type = .sync)
    (hwf : wellFormed (simplifyActionContext ctx))
    (hnext : ∀ st' : Store, ∀ e ∈ (next st').2.1,
      e.bag ≠ (simplifyActionContext ctx).dataBag) :
    ∃ res : Except Val Val,
      (mware cfg ctx next st).2.2 =
        (match res with
         | .ok v => MwResult.ok v
         | .error e => MwResult.userErr e) ∧
      eventsFor (simplifyActionContext ctx).dataBag (mware cfg ctx next st).2.1 =
        [Event.onStart (simplifyActionContext ctx) (some .started)] ++
        (if cfg.hasOnResume then
           [Event.onResume (simplifyActionContext ctx) (some .realResumed)]
         else []) ++
        (if cfg.hasOnSuspend then
           [Event.onSuspend (simplifyActionContext ctx) (some .suspended)]
         else []) ++
        [match res with
         | .ok v =>
             Event.onFinish (simplifyActionContext ctx) .ret v (some .finished)
         | .error e =>
             Event.onFinish (simplifyActionContext ctx) .thr e (some .finished)] := by
  unfold mware
  rw [if_pos hsync]
  set sctx := simplifyActionContext ctx with hsctx
  set stA := (start cfg sctx st).1 with hstA
  refine ⟨(next (resume cfg sctx true stA).1).2.2, ?_⟩
  simp only [wrappedNext_parts]
  have hstartTr : (start cfg sctx st).2 = [Event.onStart sctx (some .started)] := by
    simp [start]
  cases hres : (next (resume cfg sctx true stA).1).2.2 with
  | ok v =>
      simp only [hres]
      refine ⟨trivial, ?_⟩
      rw [eventsFor_append, eventsFor_append, eventsFor_append, eventsFor_append]
      rw [hstartTr]
      rw [resume_own_events cfg sctx true _ hwf]
      rw [suspend_own_events cfg sctx _ hwf]
      rw [finish_own_events cfg sctx .ret v _ hwf]
      rw [eventsFor_nil_of sctx.dataBag _ (hnext _)]
      unfold eventsFor
      simp
  | error e =>
      simp only [hres]
      refine ⟨trivial, ?_⟩
      rw [eventsFor_append, eventsFor_append, eventsFor_append, eventsFor_append]
      rw [hstartTr]
      rw [resume_own_events cfg sctx true _ hwf]
      rw [suspend_own_events cfg sctx _ hwf]
      rw [finish_own_events cfg sctx .thr e _ hwf]
      rw [eventsFor_nil_of sctx.dataBag _ (hnext _)]
      unfold eventsFor
      simp

/-- C1 (amended): for a sync step accepted by the filter, the hooks of that
invocation fire in exactly the sequence `onStart`, then `onResume` if that
hook is configured, then `onSuspend` if that hook is configured, then
`onFinish(Return, value)` when the wrapped callback returns `value` or
`onFinish(Throw, error)` when it throws `error`, the error being rethrown to
the caller (`userErr`) after `onFinish`; with neither resume/suspend hook
configured the sequence is exactly `onStart` then `onFinish`. -/
theorem c1_sync_hook_sequence (cfg : Cfg) (ctx : ActionContext) (next : Next)
    (st : Store) (hsync : ctx.type = .sync)
    (hacc : (filter cfg st ctx).1 = true)
    (hwf : wellFormed (simplifyActionContext ctx))
    (hnext : ∀ st' : Store, ∀ e ∈ (next st').2.1,
      e.bag ≠ (simplifyActionContext ctx).dataBag) :
    ∃ res : Except Val Val,
      (runStep cfg ctx next st).2.2 =
        some (match res with
              | .ok v => MwResult.ok v
              | .error e => MwResult.userErr e) ∧
      eventsFor (simplifyActionContext ctx).dataBag (runStep cfg ctx next st).2.1 =
        [Event.onStart (simplifyActionContext ctx) (some .started)] ++
        (if cfg.hasOnResume then
           [Event.onResume (simplifyActionContext ctx) (some .realResumed)]
         else []) ++
        (if cfg.hasOnSuspend then
           [Event.onSuspend (simplifyActionContext ctx) (some .suspended)]
         else []) ++
        [match res with
         | .ok v =>
             Event.onFinish (simplifyActionContext ctx) .ret v (some .finished)
         | .error e =>
             Event.onFinish (simplifyActionContext ctx) .thr e (some .finished)] := by
  have hrun : runStep cfg ctx next st =
      ((mware cfg ctx next (filter cfg st ctx).2).1,
       (mware cfg ctx next (filter cfg st ctx).2).2.1,
       some (mware cfg ctx next (filter cfg st ctx).2).2.2) := by
    unfold runStep
    simp only [hacc, if_true]
  rcases mware_sync_spec cfg ctx next (filter cfg st ctx).2 hsync hwf hnext with
    ⟨res, hres, htr⟩
  refine ⟨res, ?_, ?_⟩
  · rw [hrun]
    simp only [hres]
  · rw [hrun]
    exact htr

/-- C1 counterexample: an accepted sync action with the optional resume and
suspend hooks configured fires `onStart`, `onResume`, `onSuspend`,
`onFinish` — not the claimed `onStart` then `onFinish` with no
resume/suspend calls. -/
theorem c1_counterexample :
    (filter ⟨none, false, fun _ => true, true, true⟩ (fun _ => none)
        (.mk "a" .sync .spawn 7 [1] 0 none none)).1 = true ∧
    (runStep ⟨none, false, fun _ => true, true, true⟩
        (.mk "a" .sync .spawn 7 [1] 0 none none)
        (fun st => (st, [], .ok 5)) (fun _ => none)).2.1 =
      [Event.onStart (.mk "a" .sync 7 [1] 0 none) (some .started),
       Event.onResume (.mk "a" .sync 7 [1] 0 none) (some .realResumed),
       Event.onSuspend (.mk "a" .sync 7 [1] 0 none) (some .suspended),
       Event.onFinish (.mk "a" .sync 7 [1] 0 none) .ret 5 (some .finished)] := by
  constructor
  · rfl
  · rfl

/-- C1 witness: a concrete accepted sync step with no resume/suspend hooks
configured fires exactly `onStart` then `onFinish`. -/
theorem c1_witness :
    ∃ res : Except Val Val,
      (runStep ⟨none, false, fun _ => true, false, false⟩
          (.mk "b" .sync .spawn 2 [] 3 none none)
          (fun st => (st, [], .ok 9)) (fun _ => none)).2.2 =
        some (match res with
              | .ok v => MwResult.ok v
              | .error e => MwResult.userErr e) ∧
      eventsFor (simplifyActionContext (.mk "b" .sync .spawn 2 [] 3 none none)).dataBag
          (runStep ⟨none, false, fun _ => true, false, false⟩
            (.mk "b" .sync .spawn 2 [] 3 none none)
            (fun st => (st, [], .ok 9)) (fun _ => none)).2.1 =
        [Event.onStart (simplifyActionContext (.mk "b" .sync .spawn 2 [] 3 none none))
            (some .started)] ++
        (if (⟨none, false, fun _ => true, false, false⟩ : Cfg).hasOnResume then
           [Event.onResume (simplifyActionContext (.mk "b" .sync .spawn 2 [] 3 none none))
              (some .realResumed)]
         else []) ++
        (if (⟨none, false, fun _ => true, false, false⟩ : Cfg).hasOnSuspend then
           [Event.onSuspend (simplifyActionContext (.mk "b" .sync .spawn 2 [] 3 none none))
              (some .suspended)]
         else []) ++
        [match res with
         | .ok v =>
             Event.onFinish (simplifyActionContext (.mk "b" .sync .spawn 2 [] 3 none none))
               .ret v (some .finished)
         | .error e =>
             Event.onFinish (simplifyActionContext (.mk "b" .sync .spawn 2 [] 3 none none))
               .thr e (some .finished)] := by
  refine c1_sync_hook_sequence ⟨none, false, fun _ => true, false, false⟩
    (.mk "b" .sync .spawn 2 [] 3 none none)
    (fun st => (st, [], .ok 9)) (fun _ => none) rfl rfl (by decide) ?_
  intro st' e he
  simp at he

/-! ## The lifecycle state machine -/

/-- The allowed transitions of a tracked invocation's lifecycle state:
`idle → started → \x7brealResumed ⇄ fakeResumed ⇄ suspended\x7d → finished`,
entered at `idle` on creation, `suspended` only reachable from a resumed
state, `finished` terminal. -/
def okTransition : Option TState → Option TState → Bool
  | none, some .idle => true
  | some .idle, some .started => true
  | some .started, some .realResumed => true
  | some .realResumed, some .suspended => true
  | some .fakeResumed, some .suspended => true
  | some .suspended, some .realResumed => true
  | some .suspended, some .fakeResumed => true
  | some .suspended, some .finished => true
  | _, _ => false

/-- One observation step: a bag's state is unchanged or makes an allowed
transition. -/
def okStep (a b : Option TState) : Prop :=
  a = b ∨ okTransition a b = true

theorem okStep_refl (a : Option TState) : okStep a a := Or.inl rfl

theorem okStep_finished (b : Option TState) (h : okStep (some .finished) b) :
    b = some .finished := by
  rcases h with h | h
  · exact h.symm
  · exfalso
    cases b with
    | none => simp [okTransition] at h
    | some s => cases s <;> simp [okTransition] at h

theorem resume_cases (cfg : Cfg) (c : SimpleActionContext) (real : Bool)
    (st : Store) (hwf : wellFormed c) (bag : Nat) :
    (resume cfg c real st).1 bag = st bag ∨ bag = c.dataBag ∨
      (stateOf st bag = some .suspended ∧
       stateOf (resume cfg c real st).1 bag = some .fakeResumed) := by
  by_cases hb : bag = c.dataBag
  · exact Or.inr (Or.inl hb)
  · by_cases hc : bag ∈ (suspChain st c).map (·.dataBag)
    · rcases List.mem_map.mp hc with ⟨a, ha, hab⟩
      refine Or.inr (Or.inr ⟨?_, ?_⟩)
      · rw [← hab]
        exact trackedSuspended_state st a (suspChain_tracked st c a ha)
      · rw [← hab]
        exact resume_state_chain cfg c real st hwf a ha
    · exact Or.inl (resume_frame cfg c real st bag hb hc)

theorem suspend_cases (cfg : Cfg) (c : SimpleActionContext) (st : Store)
    (hwf : wellFormed c) (bag : Nat) :
    (suspend cfg c st).1 bag = st bag ∨ bag = c.dataBag ∨
      (stateOf st bag = some .fakeResumed ∧
       stateOf (suspend cfg c st).1 bag = some .suspended) := by
  by_cases hb : bag = c.dataBag
  · exact Or.inr (Or.inl hb)
  · by_cases hc : bag ∈ (fakeChain st c).map (·.dataBag)
    · rcases List.mem_map.mp hc with ⟨a, ha, hab⟩
      refine Or.inr (Or.inr ⟨?_, ?_⟩)
      · rw [← hab]
        exact trackedFake_state st a (fakeChain_tracked st c a ha)
      · rw [← hab]
        exact suspend_state_chain cfg c st hwf a ha
    · exact Or.inl (suspend_frame_fine cfg c st hwf bag hb hc)

theorem filter_store_cases (cfg : Cfg) (st : Store) (ctx : ActionContext) :
    (filter cfg st ctx).2 = st ∨
      ((ctx.type = .sync ∨ ctx.asyncStepType = .spawn) ∧
       (filter cfg st ctx).2 = setCtxData st ctx.dataBag ⟨some true, some .idle⟩) := by
  unfold filter
  by_cases hg : (truthyName cfg.actionName && ctx.name != cfg.actionName.getD "") = true
  · rw [if_pos hg]
    exact Or.inl rfl
  · simp only [Bool.not_eq_true] at hg
    rw [hg]
    simp only [Bool.false_eq_true, if_false]
    by_cases hs : ctx.type = ActionType.sync
    · rw [if_pos hs]
      by_cases hu : userFilter cfg ctx = true
      · rw [if_pos hu]
        exact Or.inr ⟨Or.inl hs, rfl⟩
      · simp only [Bool.not_eq_true] at hu
        rw [hu]
        simp
    · rw [if_neg hs]
      cases hstep : ctx.asyncStepType with
      | spawn =>
          by_cases hu : userFilter cfg ctx = true
          · rw [if_pos hu]
            exact Or.inr ⟨Or.inr rfl, rfl⟩
          · simp only [Bool.not_eq_true] at hu
            rw [hu]
            simp
      | ret => cases getCtxData st (chainRoot ctx).dataBag <;> simp
      | thr => cases getCtxData st (chainRoot ctx).dataBag <;> simp
      | resume => simp
      | resumeError => simp
      | other => simp

/-- One invocation of a lifecycle-driver primitive (the only operations that
touch tracking data), as performed by the middleware per execution step. -/
inductive DriverCall where
  | callFilter (ctx : ActionContext)
  | callStart (c : SimpleActionContext)
  | callResume (c : SimpleActionContext) (real : Bool)
  | callSuspend (c : SimpleActionContext)
  | callFinish (c : SimpleActionContext) (r : ActionTrackingResult) (v : Val)

/-- The effect of one driver call on the tracking store. -/
def applyCall (cfg : Cfg) (st : Store) : DriverCall → Store
  | .callFilter ctx => (filter cfg st ctx).2
  | .callStart c => (start cfg c st).1
  | .callResume c real => (resume cfg c real st).1
  | .callSuspend c => (suspend cfg c st).1
  | .callFinish c r v => (finish cfg c r v st).1

/-- The conditions under which the middleware entry point issues each driver
call: the filter only initializes data on fresh sync/spawn contexts, `start`
runs on a freshly accepted (idle) invocation, the wrapped callback's real
resume runs after `start` or on a suspended invocation, fake resumes target
suspended invocations, `suspend` closes a resumed bracket, and `finish` runs
once the final step's bracket has suspended the invocation; contexts are
well formed (fresh distinct bags along the parent chain). -/
def callPre (cfg : Cfg) (st : Store) : DriverCall → Prop
  | .callFilter ctx =>
      (ctx.type = .sync ∨ ctx.asyncStepType = .spawn) →
        getCtxData st ctx.dataBag = none
  | .callStart c => stateOf st c.dataBag = some .idle
  | .callResume c real =>
      wellFormed c ∧
        (real = true →
          stateOf st c.dataBag = some .started ∨
          stateOf st c.dataBag = some .suspended) ∧
        (real = false → stateOf st c.dataBag = some .suspended)
  | .callSuspend c =>
      wellFormed c ∧
        (stateOf st c.dataBag = some .realResumed ∨
         stateOf st c.dataBag = some .fakeResumed)
  | .callFinish c _ _ => wellFormed c ∧ stateOf st c.dataBag = some .suspended

theorem filter_okStep (cfg : Cfg) (st : Store) (ctx : ActionContext)
    (hpre : callPre cfg st (.callFilter ctx)) (bag : Nat) :
    okStep (stateOf st bag) (stateOf (filter cfg st ctx).2 bag) := by
  rcases filter_store_cases cfg st ctx with h | ⟨hcond, h⟩
  · rw [h]
    exact okStep_refl _
  · rw [h]
    by_cases hb : bag = ctx.dataBag
    · rw [hb, stateOf_setCtxData_self]
      have hnone := hpre hcond
      unfold getCtxData at hnone
      have hold : stateOf st ctx.dataBag = none := by
        unfold stateOf
        rw [hnone]
        rfl
      rw [hold]
      exact Or.inr rfl
    · rw [stateOf_setCtxData_other st ctx.dataBag bag _ hb]
      exact okStep_refl _

theorem start_okStep (cfg : Cfg) (st : Store) (c : SimpleActionContext)
    (hpre : callPre cfg st (.callStart c)) (bag : Nat) :
    okStep (stateOf st bag) (stateOf (start cfg c st).1 bag) := by
  unfold callPre at hpre
  simp only [start]
  by_cases hb : bag = c.dataBag
  · rw [hb, stateOf_setCtxData_self, hpre]
    exact Or.inr rfl
  · rw [stateOf_setCtxData_other st c.dataBag bag _ hb]
    exact okStep_refl _

theorem stateOf_congr_at (st1 st2 : Store) (bag : Nat) (h : st1 bag = st2 bag) :
    stateOf st1 bag = stateOf st2 bag := by
  unfold stateOf
  rw [h]

theorem resume_okStep (cfg : Cfg) (st : Store) (c : SimpleActionContext)
    (real : Bool) (hpre : callPre cfg st (.callResume c real)) (bag : Nat) :
    okStep (stateOf st bag) (stateOf (resume cfg c real st).1 bag) := by
  rcases hpre with ⟨hwf, hreal, hfake⟩
  rcases resume_cases cfg c real st hwf bag with h | h | ⟨hold, hnew⟩
  · rw [stateOf_congr_at _ _ _ h]
    exact okStep_refl _
  · rw [h]
    rw [resume_state_self cfg c real st]
    cases real with
    | true =>
        rcases hreal rfl with hold | hold <;> rw [hold] <;> exact Or.inr rfl
    | false =>
        rw [hfake rfl]
        exact Or.inr rfl
  · rw [hold, hnew]
    exact Or.inr rfl

theorem suspend_okStep (cfg : Cfg) (st : Store) (c : SimpleActionContext)
    (hpre : callPre cfg st (.callSuspend c)) (bag : Nat) :
    okStep (stateOf st bag) (stateOf (suspend cfg c st).1 bag) := by
  rcases hpre with ⟨hwf, hown⟩
  rcases suspend_cases cfg c st hwf bag with h | h | ⟨hold, hnew⟩
  · rw [stateOf_congr_at _ _ _ h]
    exact okStep_refl _
  · rw [h]
    rw [suspend_state_self cfg c st hwf]
    rcases hown with hold | hold <;> rw [hold] <;> exact Or.inr rfl
  · rw [hold, hnew]
    exact Or.inr rfl

theorem finish_okStep (cfg : Cfg) (st : Store) (c : SimpleActionContext)
    (r : ActionTrackingResult) (v : Val)
    (hpre : callPre cfg st (.callFinish c r v)) (bag : Nat) :
    okStep (stateOf st bag) (stateOf (finish cfg c r v st).1 bag) := by
  rcases hpre with ⟨hwf, hown⟩
  match hc : c.parentContext with
  | none =>
      rw [finish_not_susp cfg c r v st (by rw [hc]; intro q h; cases h)]
      by_cases hb : bag = c.dataBag
      · rw [hb, stateOf_setCtxData_self, hown]
        exact Or.inr rfl
      · rw [stateOf_setCtxData_other st c.dataBag bag _ hb]
        exact okStep_refl _
  | some p =>
      have hwfp := wellFormed_parent_of c p hc hwf
      have hnot := wellFormed_bag_not_of c p hc hwf
      simp only [List.mem_cons] at hnot
      push_neg at hnot
      by_cases hps : trackedSuspended st p = true
      · rw [finish_parent_susp cfg c r v st p hc hps]
        set stR := (resume cfg p false st).1 with hstR
        set stM := setCtxData stR c.dataBag ⟨none, some .finished⟩ with hstM
        by_cases hb : bag = c.dataBag
        · have h3 := suspend_frame_anc cfg p stM bag
            (by rw [hb]; exact fun he => hnot.1 he) (by rw [hb]; exact hnot.2)
          rw [stateOf_congr_at _ _ _ h3]
          rw [hb, hstM, stateOf_setCtxData_self, hown]
          exact Or.inr rfl
        · have hmid : stateOf stM bag = stateOf stR bag := by
            rw [hstM]
            exact stateOf_setCtxData_other _ _ _ _ hb
          by_cases hbp : bag = p.dataBag
          · have hnew := suspend_state_self cfg p stM hwfp
            rw [hbp, hnew, trackedSuspended_state st p hps]
            exact Or.inl rfl
          · rcases resume_cases cfg p false st hwfp bag with h1 | h1 | ⟨h1o, h1n⟩
            · have hmid2 : stateOf stM bag = stateOf st bag := by
                rw [hmid, hstR]
                exact stateOf_congr_at _ _ _ h1
              rcases suspend_cases cfg p stM hwfp bag with h2 | h2 | ⟨h2o, h2n⟩
              · rw [stateOf_congr_at _ _ _ h2, hmid2]
                exact okStep_refl _
              · exact absurd h2 hbp
              · rw [h2n]
                rw [hmid2] at h2o
                rw [h2o]
                exact Or.inr rfl
            · exact absurd h1 hbp
            · have hmid2 : stateOf stM bag = some .fakeResumed := by
                rw [hmid, hstR]
                exact h1n
              rcases suspend_cases cfg p stM hwfp bag with h2 | h2 | ⟨h2o, h2n⟩
              · rw [stateOf_congr_at _ _ _ h2, hmid2, h1o]
                exact Or.inr rfl
              · exact absurd h2 hbp
              · rw [h2n, h1o]
                exact Or.inl rfl
      · simp only [Bool.not_eq_true] at hps
        rw [finish_not_susp cfg c r v st ?hp]
        case hp =>
          intro q hq
          rw [hc] at hq
          simp only [Option.some_inj] at hq
          subst hq
          exact hps
        by_cases hb : bag = c.dataBag
        · rw [hb, stateOf_setCtxData_self, hown]
          exact Or.inr rfl
        · rw [stateOf_setCtxData_other st c.dataBag bag _ hb]
          exact okStep_refl _

/-- A sequence of driver calls each issued under its protocol precondition. -/
inductive ProtocolRun (cfg : Cfg) : Store → List DriverCall → Store → Prop where
  | nil (st : Store) : ProtocolRun cfg st [] st
  | cons (st : Store) (call : DriverCall) (calls : List DriverCall) (stFinal : Store) :
      callPre cfg st call →
      ProtocolRun cfg (applyCall cfg st call) calls stFinal →
      ProtocolRun cfg st (call :: calls) stFinal

theorem call_okStep (cfg : Cfg) (st : Store) (call : DriverCall)
    (hpre : callPre cfg st call) (bag : Nat) :
    okStep (stateOf st bag) (stateOf (applyCall cfg st call) bag) := by
  cases call with
  | callFilter ctx => exact filter_okStep cfg st ctx hpre bag
  | callStart c => exact start_okStep cfg st c hpre bag
  | callResume c real => exact resume_okStep cfg st c real hpre bag
  | callSuspend c => exact suspend_okStep cfg st c hpre bag
  | callFinish c r v => exact finish_okStep cfg st c r v hpre bag

theorem run_okSteps (cfg : Cfg) (st : Store) (calls : List DriverCall)
    (stFinal : Store) (h : ProtocolRun cfg st calls stFinal) (bag : Nat) :
    Relation.ReflTransGen okStep (stateOf st bag) (stateOf stFinal bag) := by
  induction h with
  | nil st => exact Relation.ReflTransGen.refl
  | cons st call calls stFinal hpre _ ih =>
      exact Relation.ReflTransGen.head (call_okStep cfg st call hpre bag) ih

theorem run_finished_terminal (cfg : Cfg) (st : Store) (calls : List DriverCall)
    (stFinal : Store) (h : ProtocolRun cfg st calls stFinal) (bag : Nat)
    (hfin : stateOf st bag = some .finished) :
    stateOf stFinal bag = some .finished := by
  induction h with
  | nil st => exact hfin
  | cons st call calls stFinal hpre _ ih =>
      refine ih ?_
      refine okStep_finished _ ?_
      rw [← hfin]
      exact call_okStep cfg st call hpre bag

/-- C5: along any protocol-conformant sequence of driver calls, each bag's
tracking state only moves along the documented machine — it is created at
`idle` (the only transition from absent data), `idle → started`,
`started → realResumed`, resumed states and `suspended` alternate,
`suspended → finished` — every single call makes one allowed move per bag,
whole runs compose those moves, and `finished` is terminal. -/
theorem c5_state_machine :
    (∀ (cfg : Cfg) (st : Store) (call : DriverCall), callPre cfg st call →
       ∀ bag, okStep (stateOf st bag) (stateOf (applyCall cfg st call) bag)) ∧
    (∀ (cfg : Cfg) (st : Store) (calls : List DriverCall) (stFinal : Store),
       ProtocolRun cfg st calls stFinal →
       ∀ bag, Relation.ReflTransGen okStep (stateOf st bag) (stateOf stFinal bag)) ∧
    (∀ (cfg : Cfg) (st : Store) (calls : List DriverCall) (stFinal : Store) (bag : Nat),
       ProtocolRun cfg st calls stFinal → stateOf st bag = some .finished →
       stateOf stFinal bag = some .finished) := by
  refine ⟨call_okStep, run_okSteps, ?_⟩
  intro cfg st calls stFinal bag h hfin
  exact run_finished_terminal cfg st calls stFinal h bag hfin

/-- C5 witness: a concrete `start` call on an idle invocation makes the
allowed `idle → started` move. -/
theorem c5_witness :
    okStep (stateOf (fun b => if b = 0 then some ⟨some true, some .idle⟩ else none) 0)
      (stateOf (applyCall ⟨none, false, fun _ => true, true, true⟩
        (fun b => if b = 0 then some ⟨some true, some .idle⟩ else none)
        (.callStart (.mk "a" .sync 0 [] 0 none))) 0) := by
  refine c5_state_machine.1 ⟨none, false, fun _ => true, true, true⟩
    (fun b => if b = 0 then some ⟨some true, some .idle⟩ else none)
    (.callStart (.mk "a" .sync 0 [] 0 none)) ?_ 0
  show stateOf (fun b => if b = 0 then some ⟨some true, some .idle⟩ else none)
    (SimpleActionContext.mk "a" .sync 0 [] 0 none).dataBag = some .idle
  rfl
